import Mathlib

/-! # micro-os-plus/posix-io

A shallow embedding of the mount manager (`src/src/MountManager.cpp`), of the
descriptor table, of the object pool, of the calls of `src/src/IO.cpp` (`open`, `close`,
`read`, `write`, `writev`, `fstat`) and of `socket` and `accept`
(`src/src/posix-io/Socket.cpp`), and the properties of their operations.

Conventions of the embedding:

* a `char` is a Lean `Char`, NUL being the character of code 0; a `const char*` is a
  `CharPtr`: the characters of the underlying buffer and an offset into it, so that
  pointer arithmetic (`*path1 + len - 1`) is exact; `strlen`, `strcmp` and `strncmp`
  follow the C standard on the string a pointer designates;
* a `FileSystem*` / `BlockDevice*` is the identity of the object (a number),
  `Option` standing for a possibly null pointer;
* the static arrays `sfFileSystemsArray` and `sfPathsArray` are functions of the
  index, only the indices below `sfSize` are ever read or written;
* the virtual hooks `do_mount`, `do_sync`, `do_unmount` of a filesystem are driver
  code outside the repository: each invocation is recorded, in order, in
  `Sys.calls`, and the integer a hook returns is taken from `Hooks`; such a hook acts
  on its own filesystem only, it writes neither the statics of the mount manager nor
  `errno`;
* `assert` is a run-time check: a function with a failing assertion (or a null
  dereference) yields `none`; pointers asserted non-null are taken non-null by type.
-/

namespace PosixIO

/-! ## C strings -/

/-- The byte terminating a C string. -/
def NUL : Char := Char.ofNat 0

/-- A `const char*`: the buffer pointed into and the offset of the pointer. -/
structure CharPtr where
  buf : List Char
  off : Int
deriving DecidableEq, Repr

namespace CharPtr

/-- The C string a pointer designates: the characters from the pointer up to,
not including, the first NUL (the end of the buffer counts as the terminator). -/
def str (p : CharPtr) : List Char :=
  if 0 ≤ p.off then (p.buf.drop p.off.toNat).takeWhile (fun c => c != NUL) else []

/-- Pointer arithmetic `p + k`. -/
def add (p : CharPtr) (k : Int) : CharPtr := ⟨p.buf, p.off + k⟩

/-- A string literal: a pointer to the start of its own buffer. -/
def lit (s : String) : CharPtr := ⟨s.toList, 0⟩

end CharPtr

/-- `std::strlen`: the number of characters before the terminator. -/
def strlen (s : CharPtr) : Nat := s.str.length

/-- The comparison of `strncmp` on the characters of two strings: at most `n`
characters are compared, the result is the difference of the first two that
differ (a string that ended reads as NUL), and `0` when none does. -/
def strncmpChars : List Char → List Char → Nat → Int
  | _, _, 0 => 0
  | [], [], _ + 1 => 0
  | [], b :: _, _ + 1 => 0 - (b.toNat : Int)
  | a :: _, [], _ + 1 => (a.toNat : Int) - 0
  | a :: as, b :: bs, n + 1 =>
    if a = b then strncmpChars as bs n else (a.toNat : Int) - (b.toNat : Int)

/-- `std::strncmp`. -/
def strncmp (s1 s2 : CharPtr) (n : Nat) : Int := strncmpChars s1.str s2.str n

/-- The comparison of `strcmp` on the characters of two strings. -/
def strcmpChars : List Char → List Char → Int
  | [], [] => 0
  | [], b :: _ => 0 - (b.toNat : Int)
  | a :: _, [] => (a.toNat : Int) - 0
  | a :: as, b :: bs =>
    if a = b then strcmpChars as bs else (a.toNat : Int) - (b.toNat : Int)

/-- `std::strcmp`. -/
def strcmp (s1 s2 : CharPtr) : Int := strcmpChars s1.str s2.str

/-! ## errno values (`<cerrno>`, the values of newlib and Linux) -/

def ENOENT : Int := 2
def EBUSY : Int := 16
def EINVAL : Int := 22

/-! ## The mount manager -/

/-- Identity of a `FileSystem` object. -/
abbrev FileSystem := Nat

/-- Identity of a `BlockDevice` object. -/
abbrev BlockDevice := Nat

/-- The static members of `MountManager`. -/
structure MountManager where
  sfSize : Nat
  sfRoot : Option FileSystem
  sfFileSystemsArray : Nat → Option FileSystem
  sfPathsArray : Nat → Option CharPtr

/-- Writing `v` at index `i` of an array. -/
def setAt {α : Type} (a : Nat → α) (i : Nat) (v : α) : Nat → α :=
  fun j => if j = i then v else a j

/-- What `identifyFileSystem` hands back: the returned `FileSystem*` and the
values left in `*path1` and in `path2` (`none`: `path2` is null, `some none`:
`*path2` is null). -/
structure Identified where
  fs : Option FileSystem
  path1 : CharPtr
  path2 : Option (Option CharPtr)

namespace MountManager

/-- The constructor `MountManager (size)`; `sfRoot` is a zero-initialised static. -/
def create (size : Nat) : Option MountManager :=
  if 0 < size then
    some ⟨size, none, fun _ => none, fun _ => none⟩
  else none

/-- The loop of `identifyFileSystem` with `k` iterations left, at index `i`,
followed by the root fall-back. -/
def identifyLoop (m : MountManager) (path1 : CharPtr) (path2 : Option (Option CharPtr)) :
    Nat → Nat → Identified
  | 0, _ =>
    match m.sfRoot with
    | some root => ⟨some root, path1, path2⟩
    | none => ⟨none, path1, path2⟩
  | k + 1, i =>
    match m.sfPathsArray i with
    | none => identifyLoop m path1 path2 k (i + 1)
    | some mp =>
      let len := strlen mp
      if strncmp mp path1 len = 0 then
        ⟨m.sfFileSystemsArray i,
          (path1.add len).add (-1),
          match path2 with
          | some (some p2) => some (some ((p2.add len).add (-1)))
          | other => other⟩
      else identifyLoop m path1 path2 k (i + 1)

/-- `MountManager::identifyFileSystem (const char** path1, const char** path2)`;
`path1` and `*path1` are asserted non-null. -/
def identifyFileSystem (m : MountManager) (path1 : CharPtr)
    (path2 : Option (Option CharPtr)) : Identified :=
  identifyLoop m path1 path2 m.sfSize 0

end MountManager

/-! ## Filesystem objects and the process state -/

/-- An operation performed on a `FileSystem` object, as the driver sees it. -/
inductive Call
  | setBlockDevice (fs : FileSystem) (blockDevice : Option BlockDevice)
  | do_mount (fs : FileSystem) (flags : Nat)
  | do_sync (fs : FileSystem)
  | do_unmount (fs : FileSystem) (flags : Nat)
deriving DecidableEq, Repr

/-- The integers returned by the driver's virtual hooks. -/
structure Hooks where
  do_mount : FileSystem → Nat → Int
  do_unmount : FileSystem → Nat → Int

/-- The state the mount manager's functions act on: its statics, `errno`, the
block device attached to each filesystem object, and the operations performed on
filesystem objects so far, oldest first. -/
structure Sys where
  mm : MountManager
  errno : Int
  blockDevice : FileSystem → Option BlockDevice
  calls : List Call

/-- Modelled from the spec: `FileSystem::setBlockDevice` (FileSystem.h is not among
the sources) attaches the block device to the filesystem object. -/
def FileSystem.setBlockDevice (s : Sys) (fs : FileSystem) (blockDevice : Option BlockDevice) :
    Sys :=
  { s with
    blockDevice := setAt s.blockDevice fs blockDevice
    calls := s.calls ++ [Call.setBlockDevice fs blockDevice] }

/-- Modelled from the spec: the mount hook `FileSystem::do_mount (flags)`, supplied by
the concrete filesystem; the invocation is recorded and the result is the driver's. -/
def FileSystem.do_mount (h : Hooks) (s : Sys) (fs : FileSystem) (flags : Nat) : Int × Sys :=
  (h.do_mount fs flags, { s with calls := s.calls ++ [Call.do_mount fs flags] })

/-- Modelled from the spec: the sync hook `FileSystem::do_sync ()`, supplied by the
concrete filesystem; the invocation is recorded. -/
def FileSystem.do_sync (s : Sys) (fs : FileSystem) : Sys :=
  { s with calls := s.calls ++ [Call.do_sync fs] }

/-- Modelled from the spec: the unmount hook `FileSystem::do_unmount (flags)`, supplied
by the concrete filesystem; the invocation is recorded and the result is the driver's. -/
def FileSystem.do_unmount (h : Hooks) (s : Sys) (fs : FileSystem) (flags : Nat) : Int × Sys :=
  (h.do_unmount fs flags, { s with calls := s.calls ++ [Call.do_unmount fs flags] })

/-- The state after the static `MountManager` object of the given size is built. -/
def boot (size : Nat) : Option Sys :=
  match MountManager.create size with
  | some m => some ⟨m, 0, fun _ => none, []⟩
  | none => none

namespace MountManager

/-- `MountManager::setRoot (fs, blockDevice, flags)`; `fs` is asserted non-null. -/
def setRoot (h : Hooks) (s : Sys) (fs : FileSystem) (blockDevice : Option BlockDevice)
    (flags : Nat) : Int × Sys :=
  let s0 := { s with errno := 0 }
  let s1 := { s0 with mm := { s0.mm with sfRoot := some fs } }
  let s2 := FileSystem.setBlockDevice s1 fs blockDevice
  FileSystem.do_mount h s2 fs flags

/-- The first loop of `mount`: is `path` already the path of an entry? -/
def mountBusyLoop (m : MountManager) (path : CharPtr) : Nat → Nat → Bool
  | 0, _ => false
  | k + 1, i =>
    match m.sfPathsArray i with
    | some mp =>
      if strcmp mp path = 0 then true
      else mountBusyLoop m path k (i + 1)
    | none => mountBusyLoop m path k (i + 1)

/-- The second loop of `mount`, followed by the "array size exceeded" exit. -/
def mountStoreLoop (h : Hooks) (s : Sys) (fs : FileSystem) (path : CharPtr)
    (blockDevice : Option BlockDevice) (flags : Nat) : Nat → Nat → Int × Sys
  | 0, _ => (-1, { s with errno := ENOENT })
  | k + 1, i =>
    match s.mm.sfFileSystemsArray i with
    | none =>
      let s1 := FileSystem.setBlockDevice s fs blockDevice
      let s2 := (FileSystem.do_mount h s1 fs flags).2
      (0, { s2 with
            mm := { s2.mm with
                    sfFileSystemsArray := setAt s2.mm.sfFileSystemsArray i (some fs)
                    sfPathsArray := setAt s2.mm.sfPathsArray i (some path) } })
    | some _ => mountStoreLoop h s fs path blockDevice flags k (i + 1)

/-- `MountManager::mount (fs, path, blockDevice, flags)`; `fs` and `path` are asserted
non-null, and `assert(path[strlen(path) - 1] == '/')` fails on a path whose last
character is not the separator (an empty path has no last character). -/
def mount (h : Hooks) (s : Sys) (fs : FileSystem) (path : CharPtr)
    (blockDevice : Option BlockDevice) (flags : Nat) : Option (Int × Sys) :=
  if path.str.getLast? = some '/' then
    let s0 := { s with errno := 0 }
    if mountBusyLoop s0.mm path s0.mm.sfSize 0 then
      some (-1, { s0 with errno := EBUSY })
    else
      some (mountStoreLoop h s0 fs path blockDevice flags s0.mm.sfSize 0)
  else none

/-- The loop of `umount`, followed by the "not in the mount table" exit; an entry
with a path and a null filesystem makes `sfFileSystemsArray[i]->do_sync ()` a null
dereference. -/
def umountLoop (h : Hooks) (s : Sys) (path : CharPtr) (flags : Nat) :
    Nat → Nat → Option (Int × Sys)
  | 0, _ => some (-1, { s with errno := EINVAL })
  | k + 1, i =>
    match s.mm.sfPathsArray i with
    | some mp =>
      if strcmp path mp = 0 then
        match s.mm.sfFileSystemsArray i with
        | some fs =>
          let s1 := FileSystem.do_sync s fs
          let s2 := (FileSystem.do_unmount h s1 fs flags).2
          let s3 := FileSystem.setBlockDevice s2 fs none
          some (0, { s3 with
                     mm := { s3.mm with
                             sfFileSystemsArray := setAt s3.mm.sfFileSystemsArray i none
                             sfPathsArray := setAt s3.mm.sfPathsArray i none } })
        | none => none
      else umountLoop h s path flags k (i + 1)
    | none => umountLoop h s path flags k (i + 1)

/-- `MountManager::umount (path, flags)`; `path` is asserted non-null. -/
def umount (h : Hooks) (s : Sys) (path : CharPtr) (flags : Nat) : Option (Int × Sys) :=
  let s0 := { s with errno := 0 }
  umountLoop h s0 path flags s0.mm.sfSize 0

end MountManager

/-! ## Vocabulary of the statements -/

/-- Entry `i` of the table is occupied (its path is non-null) and its mount path is
a byte-for-byte prefix of the string `path` designates. -/
def MatchesAt (m : MountManager) (path : CharPtr) (i : Nat) : Prop :=
  match m.sfPathsArray i with
  | some mp => mp.str <+: path.str
  | none => False

instance (m : MountManager) (path : CharPtr) (i : Nat) : Decidable (MatchesAt m path i) := by
  unfold MatchesAt
  split <;> infer_instance

/-- The value `identifyFileSystem` leaves in `path2` when it selects a mount path of
length `len`: a non-null `*path2` is advanced by `len - 1`. -/
def advanced (path2 : Option (Option CharPtr)) (len : Nat) : Option (Option CharPtr) :=
  match path2 with
  | some (some p2) => some (some ((p2.add len).add (-1)))
  | other => other

/-- Length of the mount path of entry `i` (`0` for a free entry). -/
def mountLen (m : MountManager) (i : Nat) : Nat :=
  match m.sfPathsArray i with
  | some mp => strlen mp
  | none => 0

/-- Entry `i` holds a longest registered mount path that is a prefix of `path`. -/
def LongestMatchAt (m : MountManager) (path : CharPtr) (i : Nat) : Prop :=
  i < m.sfSize ∧ MatchesAt m path i ∧
    ∀ j, j < m.sfSize → MatchesAt m path j → mountLen m j ≤ mountLen m i

/-- A table of two slots in the state of the socket test after
`mount (&fs1, "/fs1/", ...)`: filesystem 1 at "/fs1/", filesystem 0 as root. -/
def tableFs1 : MountManager :=
  ⟨2, some 0, fun i => if i = 0 then some 1 else none,
    fun i => if i = 0 then some (CharPtr.lit "/fs1/") else none⟩

/-- A table of two slots holding "/a/" (filesystem 1) before "/a/b/" (filesystem 2),
without a root. -/
def tableNested : MountManager :=
  ⟨2, none, fun i => if i = 0 then some 1 else if i = 1 then some 2 else none,
    fun i => if i = 0 then some (CharPtr.lit "/a/")
      else if i = 1 then some (CharPtr.lit "/a/b/") else none⟩

/-- A table of two slots holding "/a/b/" (filesystem 2) before "/a/" (filesystem 1),
without a root. -/
def tableLongestFirst : MountManager :=
  ⟨2, none, fun i => if i = 0 then some 2 else if i = 1 then some 1 else none,
    fun i => if i = 0 then some (CharPtr.lit "/a/b/")
      else if i = 1 then some (CharPtr.lit "/a/") else none⟩

/-- Entry `i` of the table is occupied and its path string equals the string `path`
designates. -/
def PathAt (m : MountManager) (path : CharPtr) (i : Nat) : Prop :=
  match m.sfPathsArray i with
  | some mp => mp.str = path.str
  | none => False

instance (m : MountManager) (path : CharPtr) (i : Nat) : Decidable (PathAt m path i) := by
  unfold PathAt
  split <;> infer_instance

/-- Hooks that always report success, as those of the test filesystems. -/
def hooksOk : Hooks := ⟨fun _ _ => 0, fun _ _ => 0⟩

/-- The socket test after `setRoot (&root_fs, &root_dev, 123)` and
`mount (&fs1, "/fs1/", &dev1, 124)`, with `errno` preset to -2: filesystems 0 (root)
and 1, block devices 10 and 11. -/
def sysFs1 : Sys :=
  ⟨tableFs1, -2, fun g => if g = 0 then some 10 else if g = 1 then some 11 else none,
    [Call.setBlockDevice 0 (some 10), Call.do_mount 0 123,
      Call.setBlockDevice 1 (some 11), Call.do_mount 1 124]⟩

/-- A state whose table of two slots is full: "/a/" (filesystem 1, device 11) and
"/a/b/" (filesystem 2, device 12). -/
def sysNested : Sys :=
  ⟨tableNested, -2, fun g => if g = 1 then some 11 else if g = 2 then some 12 else none,
    [Call.setBlockDevice 1 (some 11), Call.do_mount 1 124,
      Call.setBlockDevice 2 (some 12), Call.do_mount 2 124]⟩

/-! ## Sequences of calls and the insertion order of the spec -/

/-- A call of the mount manager. -/
inductive Op
  | mount (fs : FileSystem) (path : CharPtr) (blockDevice : Option BlockDevice) (flags : Nat)
  | umount (path : CharPtr) (flags : Nat)

/-- Is the call a `mount`? -/
def Op.isMount : Op → Bool
  | Op.mount _ _ _ _ => true
  | Op.umount _ _ => false

/-- The path argument of a call. -/
def Op.path : Op → CharPtr
  | Op.mount _ path _ _ => path
  | Op.umount path _ => path

/-- Performing one call. -/
def step (h : Hooks) (s : Sys) : Op → Option (Int × Sys)
  | Op.mount fs path blockDevice flags => MountManager.mount h s fs path blockDevice flags
  | Op.umount path flags => MountManager.umount h s path flags

/-- The mounted entries in insertion order, as the spec words it: a `mount` that
returns 0 adds its entry after the others, a `umount` that returns 0 removes the
entry with that path string. -/
def record (log : List (CharPtr × FileSystem)) (op : Op) (ret : Int) :
    List (CharPtr × FileSystem) :=
  match op with
  | Op.mount fs path _ _ => if ret = 0 then log ++ [(path, fs)] else log
  | Op.umount path _ =>
    if ret = 0 then log.eraseP (fun e => decide (e.1.str = path.str)) else log

/-- Performing a sequence of calls, keeping the insertion-order list along. -/
def runLog (h : Hooks) : List Op → Sys → List (CharPtr × FileSystem) →
    Option (Sys × List (CharPtr × FileSystem))
  | [], s, log => some (s, log)
  | op :: ops, s, log =>
    match step h s op with
    | some (ret, s') => runLog h ops s' (record log op ret)
    | none => none

/-- The filesystem of the earliest mounted entry, among those currently mounted,
whose path is a prefix of `path`. -/
def earliestMounted (log : List (CharPtr × FileSystem)) (path : CharPtr) :
    Option FileSystem :=
  match log.find? (fun e => decide (e.1.str <+: path.str)) with
  | some e => some e.2
  | none => none

/-- Four calls on a table of two slots: "/a/" and "/a/b/" are mounted, "/a/" is
unmounted and then mounted again with filesystem 3. -/
def opsRemount : List Op :=
  [Op.mount 1 (CharPtr.lit "/a/") (some 11) 124,
   Op.mount 2 (CharPtr.lit "/a/b/") (some 12) 124,
   Op.umount (CharPtr.lit "/a/") 134,
   Op.mount 3 (CharPtr.lit "/a/") (some 13) 124]

/-- The occupied entries of the table between index `i` and `i + k`, in index
order. -/
def entriesFrom (m : MountManager) : Nat → Nat → List (CharPtr × Option FileSystem)
  | 0, _ => []
  | k + 1, i =>
    match m.sfPathsArray i with
    | some mp => (mp, m.sfFileSystemsArray i) :: entriesFrom m k (i + 1)
    | none => entriesFrom m k (i + 1)

/-- The occupied entries, in index order, are the entries of `log`. -/
def Listed (m : MountManager) (log : List (CharPtr × FileSystem)) : Prop :=
  entriesFrom m m.sfSize 0 = log.map (fun e => (e.1, some e.2))

/-- The table holds the entries of `log` in its first slots and nothing else. -/
def Compact (m : MountManager) (log : List (CharPtr × FileSystem)) : Prop :=
  log.length ≤ m.sfSize ∧
    ∀ i, m.sfPathsArray i = (log[i]?).map (fun e => e.1) ∧
      m.sfFileSystemsArray i = (log[i]?).map (fun e => e.2)

/-- Three mount calls: "/a/" (filesystem 1), "/a/b/" (filesystem 2), "/c/"
(filesystem 3). -/
def opsMounts : List Op :=
  [Op.mount 1 (CharPtr.lit "/a/") (some 11) 124,
   Op.mount 2 (CharPtr.lit "/a/b/") (some 12) 124,
   Op.mount 3 (CharPtr.lit "/c/") (some 13) 124]

/-- One umount call, of "/a/". -/
def opsUmounts : List Op := [Op.umount (CharPtr.lit "/a/") 134]

/-! ## Vocabulary for `setRoot` and the reachable tables -/

/-- Hooks that always report failure. -/
def hooksFail : Hooks := ⟨fun _ _ => -1, fun _ _ => -1⟩

/-- No two occupied entries of the table hold equal path strings. -/
def UniquePaths (m : MountManager) : Prop :=
  ∀ i j, i < m.sfSize → j < m.sfSize → ∀ p q, m.sfPathsArray i = some p →
    m.sfPathsArray j = some q → p.str = q.str → i = j

/-! ## I/O objects, the descriptor table and the pools

`FileDescriptorsManager.cpp`, `Types.h` and the `PosixPool` base class are not among
the sources: the descriptor table and the pool are modelled from the spec. The
members of `IO` come from `IO.h` and `IO.cpp`. The overrides of `doRelease ()`, through
which `IO::close` gives an object back to its pool, are not among the sources either:
they are modelled from the spec. A hook of an I/O object sees the state it is invoked
in, its invocation is recorded in `IoSys.calls` and, besides returning its result, it
may set `errno`. -/

/-- Identity of an `IO` object, of whatever derived class. -/
abbrev IoObject := Nat

/-- `IO::Type` (`NOTSET` is the value the constructor `IO::IO ()` stores). -/
inductive IoType
  | UNKNOWN
  | NOTSET
  | DEVICE
  | FILE
  | SOCKET
deriving DecidableEq, Repr

/-- Modelled from the spec: `noFileDescriptor` (Types.h is not among the sources), the
"unset" sentinel of a stored descriptor; a descriptor proper is a small non-negative
integer. -/
def noFileDescriptor : Int := -1

def EBADF : Int := 9
def ENFILE : Int := 23

/-- The statics of `FileDescriptorsManager`: the capacity and the table, a null entry
being a free descriptor. -/
structure FileDescriptorsManager where
  sfSize : Nat
  sfDescriptorsArray : Nat → Option IoObject

/-- Modelled from the spec: the members of `PosixPool` (PosixPool.h is not among the
sources): a fixed number of slots, each an object pointer and an in-use flag. -/
structure Pool where
  fSize : Nat
  fArray : Nat → IoObject
  fInUse : Nat → Bool

/-- An invocation of a hook of an I/O object. -/
inductive IoCall
  | do_close (io : IoObject)
  | do_vopen (io : IoObject) (path : CharPtr) (oflag : Int)
  | fs_open (fs : FileSystem) (path : CharPtr) (oflag : Int)
  | do_socket (io : IoObject) (domain : Int) (type : Int) (protocol : Int)
  | do_accept (io : IoObject) (new_socket : IoObject)
  | do_read (io : IoObject) (buf : Nat) (nbyte : Nat)
  | do_write (io : IoObject) (buf : Option Nat) (nbyte : Nat)
  | do_fstat (io : IoObject) (buf : Nat)
deriving DecidableEq, Repr

/-- What a hook does besides acting on its own device: the value it returns and the
value it stores in `errno`, if any. -/
structure HookOutcome where
  result : Int
  errno : Option Int

/-- The state the I/O layer acts on: the descriptor table, the members `fType` and
`fFileDescriptor` of every I/O object, the pool `NetStack::getSocketsPool ()` returns
(possibly null), `errno`, and the hook invocations so far, oldest first. The last two
fields are modelled from the spec (File.h, FileSystem.h and Directory.h are not among
the sources): `pools` are the pools the file systems are constructed with
(`FileSystem (filesPool, dirsPool)` in the tests), by number, and `owningPool` is, for
an object acquired from one of them, the pool it belongs to ("its owning pool"); an
object that lives in no pool, such as a device, has none. -/
structure IoSys where
  fdm : FileDescriptorsManager
  fType : IoObject → IoType
  fFileDescriptor : IoObject → Int
  socketsPool : Option Pool
  errno : Int
  calls : List IoCall
  pools : Nat → Option Pool
  owningPool : IoObject → Option Nat

/-- The hooks supplied by the concrete classes, as functions of the state they are
invoked in. -/
structure IoHooks where
  do_close : IoSys → IoObject → HookOutcome

namespace IoObject

/-- `IO::setFileDescriptor (fildes)`. -/
def setFileDescriptor (s : IoSys) (io : IoObject) (fildes : Int) : IoSys :=
  { s with fFileDescriptor := setAt s.fFileDescriptor io fildes }

/-- `IO::clearFileDescriptor ()`. -/
def clearFileDescriptor (s : IoSys) (io : IoObject) : IoSys :=
  { s with fFileDescriptor := setAt s.fFileDescriptor io noFileDescriptor }

/-- `IO::getFileDescriptor ()`. -/
def getFileDescriptor (s : IoSys) (io : IoObject) : Int :=
  s.fFileDescriptor io

end IoObject

namespace FileDescriptorsManager

/-- Modelled from the spec: the table of capacity `size` as initialised at process
start (FileDescriptorsManager.cpp is not among the sources): no slot is bound. -/
def create (size : Nat) : FileDescriptorsManager :=
  ⟨size, fun _ => none⟩

/-- `FileDescriptorsManager::getSize ()`: the number of elements of the table. -/
def getSize (s : IoSys) : Nat :=
  s.fdm.sfSize

/-- Modelled from the spec: `isValid (fildes)` (FileDescriptorsManager.cpp is not among
the sources): a pure lookup, false outside [0, capacity). -/
def isValid (s : IoSys) (fildes : Int) : Bool :=
  decide (0 ≤ fildes ∧ fildes < (s.fdm.sfSize : Int))

/-- Modelled from the spec: `getIo (fildes)` (FileDescriptorsManager.cpp is not among
the sources): a pure lookup, null for an invalid index. -/
def getIo (s : IoSys) (fildes : Int) : Option IoObject :=
  if isValid s fildes then s.fdm.sfDescriptorsArray fildes.toNat else none

/-- The scan of `alloc` with `k` indices left, at index `i`: the lowest free index is
bound to `io` and stored on `io`; with no free index the call fails with
TooManyOpenFiles. -/
def allocLoop (s : IoSys) (io : IoObject) : Nat → Nat → Int × IoSys
  | 0, _ => (-1, { s with errno := ENFILE })
  | k + 1, i =>
    match s.fdm.sfDescriptorsArray i with
    | none =>
      let s1 := { s with
        fdm := { s.fdm with sfDescriptorsArray := setAt s.fdm.sfDescriptorsArray i (some io) } }
      ((i : Int), IoObject.setFileDescriptor s1 io (i : Int))
    | some _ => allocLoop s io k (i + 1)

/-- Modelled from the spec: `alloc (io)` (FileDescriptorsManager.cpp is not among the
sources): fails with Busy if `io` already has a valid descriptor; otherwise scans from
the lowest index that is handed out, 3, the indices 0 to 2 being reserved for the
standard streams. -/
def alloc (s : IoSys) (io : IoObject) : Int × IoSys :=
  if 0 ≤ IoObject.getFileDescriptor s io then
    (-1, { s with errno := EBUSY })
  else
    allocLoop s io (s.fdm.sfSize - 3) 3

/-- Modelled from the spec: `free (fildes)` (FileDescriptorsManager.cpp is not among
the sources): fails with BadFileDescriptor if the index is outside [0, capacity) or
already free; otherwise clears the slot and the stored descriptor of the object. -/
def free (s : IoSys) (fildes : Int) : Int × IoSys :=
  if fildes < 0 ∨ (s.fdm.sfSize : Int) ≤ fildes then
    (-1, { s with errno := EBADF })
  else
    match s.fdm.sfDescriptorsArray fildes.toNat with
    | none => (-1, { s with errno := EBADF })
    | some io =>
      let s1 := { s with
        fdm := { s.fdm with
                 sfDescriptorsArray := setAt s.fdm.sfDescriptorsArray fildes.toNat none } }
      (0, IoObject.clearFileDescriptor s1 io)

end FileDescriptorsManager

namespace Pool

/-- The constructor `TPosixPool<T> (size)`: every slot receives a freshly allocated
object (`new T`), the objects being numbered from `base`; no slot is in use. -/
def create (size : Nat) (base : IoObject) : Pool :=
  ⟨size, fun i => base + i, fun _ => false⟩

/-- `getObject (i)` of the tests. -/
def getObject (p : Pool) (i : Nat) : IoObject :=
  p.fArray i

/-- `getFlag (i)` of the tests. -/
def getFlag (p : Pool) (i : Nat) : Bool :=
  p.fInUse i

/-- The linear scan of `aquire` with `k` slots left, at slot `i`. -/
def aquireLoop (p : Pool) : Nat → Nat → Option IoObject × Pool
  | 0, _ => (none, p)
  | k + 1, i =>
    if p.fInUse i then aquireLoop p k (i + 1)
    else (some (p.fArray i), { p with fInUse := setAt p.fInUse i true })

/-- Modelled from the spec: `PosixPool::aquire ()` (PosixPool.cpp is not among the
sources), to which `TPosixPool<T>::aquire ()` forwards: a linear scan for a free slot,
which is marked in-use and whose object is returned; null if the pool is exhausted. -/
def aquire (p : Pool) : Option IoObject × Pool :=
  aquireLoop p p.fSize 0

/-- The scan of `release` with `k` slots left, at slot `i`. -/
def releaseLoop (p : Pool) (obj : IoObject) : Nat → Nat → Bool × Pool
  | 0, _ => (false, p)
  | k + 1, i =>
    if p.fArray i = obj then (true, { p with fInUse := setAt p.fInUse i false })
    else releaseLoop p obj k (i + 1)

/-- Modelled from the spec: `PosixPool::release (obj)` (PosixPool.cpp is not among the
sources), to which `TPosixPool<T>::release (obj)` forwards: marks the slot of `obj`
free; reports failure if `obj` is not a member of the storage of the pool. -/
def release (p : Pool) (obj : IoObject) : Bool × Pool :=
  releaseLoop p obj p.fSize 0

end Pool

/-- `Socket::do_release ()`: the socket is returned to the sockets pool, if there is
one. -/
def Socket.do_release (s : IoSys) (io : IoObject) : IoSys :=
  match s.socketsPool with
  | some pool => { s with socketsPool := some (Pool.release pool io).2 }
  | none => s

namespace IoObject

/-- The virtual hook `do_close ()`: the implementation of the concrete class runs in
the current state (`IO::do_close` itself returns 0). -/
def do_close (h : IoHooks) (s : IoSys) (io : IoObject) : Int × IoSys :=
  ((h.do_close s io).result,
    { s with
      errno := ((h.do_close s io).errno).getD s.errno
      calls := s.calls ++ [IoCall.do_close io] })

/-- Modelled from the spec: the release of an object that lives in a pool of a file
system, a file or a directory (File.cpp and Directory.cpp are not among the sources):
the object is returned to its owning pool, whose slot is marked free. -/
def releaseToOwningPool (s : IoSys) (io : IoObject) : IoSys :=
  match s.owningPool io with
  | none => s
  | some n =>
    match s.pools n with
    | some pool => { s with pools := setAt s.pools n (some (Pool.release pool io).2) }
    | none => s

/-- Modelled from the spec: the virtual call `doRelease ()` of `IO::close`. The sources
hold `IO::doRelease`, which does nothing, and no override of it: File.cpp, Directory.cpp
and Socket.h are not among them, and Socket.cpp defines the release of a socket under
another name, `Socket::do_release`, which nothing in the sources calls. After the spec
("then returns the object to its owning pool") the overrides are taken to return the
object to its owning pool: a socket to the sockets pool, as `Socket::do_release` does,
any other object to the pool of the file system it was acquired from; an object that
lives in no pool keeps `IO::doRelease`. -/
def doRelease (s : IoSys) (io : IoObject) : IoSys :=
  match s.fType io with
  | IoType.SOCKET => Socket.do_release s io
  | _ => releaseToOwningPool s io

/-- `IO::close ()`. -/
def close (h : IoHooks) (s : IoSys) (io : IoObject) : Int × IoSys :=
  let s0 := { s with errno := 0 }
  let r := do_close h s0 io
  let s2 := (FileDescriptorsManager.free r.2 (getFileDescriptor r.2 io)).2
  let s3 := clearFileDescriptor s2 io
  let s4 := doRelease s3 io
  (r.1, s4)

end IoObject

/-- The state at process start: a descriptor table of capacity `size`, the objects
constructed with the given classes and no descriptor (`IO::IO ()`), no sockets pool and
no pool of a file system. -/
def bootIo (size : Nat) (fType : IoObject → IoType) : IoSys :=
  { fdm := FileDescriptorsManager.create size
    fType := fType
    fFileDescriptor := fun _ => noFileDescriptor
    socketsPool := none
    errno := 0
    calls := []
    pools := fun _ => none
    owningPool := fun _ => none }

/-- Successive `alloc` calls, one for each object of the list. -/
def allocAll (s : IoSys) : List IoObject → List Int × IoSys
  | [] => ([], s)
  | io :: ios =>
    ((FileDescriptorsManager.alloc s io).1 ::
        (allocAll (FileDescriptorsManager.alloc s io).2 ios).1,
      (allocAll (FileDescriptorsManager.alloc s io).2 ios).2)

/-- The objects of a pool are pairwise distinct, as the constructor makes them. -/
def Pool.Distinct (p : Pool) : Prop :=
  ∀ i j, i < p.fSize → j < p.fSize → p.fArray i = p.fArray j → i = j

/-- The object `obj` is currently held: it sits in a slot that is in use. -/
def Pool.Held (p : Pool) (obj : IoObject) : Prop :=
  ∃ i, i < p.fSize ∧ p.fArray i = obj ∧ p.fInUse i = true

/-- A descriptor table of five slots, as in the descriptors-manager test, after
`alloc (&test1)`, `alloc (&test2)` and `free (3)`: object 2 holds descriptor 4, index 3
is free again. -/
def ioAfterFree : IoSys :=
  (FileDescriptorsManager.free
    (FileDescriptorsManager.alloc
      (FileDescriptorsManager.alloc (bootIo 5 (fun _ => IoType.NOTSET)) 1).2 2).2 3).2

/-- A descriptor table of five slots, as in the descriptors-manager test, after
`alloc (&test1)` and `alloc (&test2)`: the indices 3 and 4 are bound. -/
def ioFull : IoSys :=
  (FileDescriptorsManager.alloc
    (FileDescriptorsManager.alloc (bootIo 5 (fun _ => IoType.NOTSET)) 1).2 2).2

/-- The indices from 3 up to `3 + n`, as far as they exist, are the bound ones of the
table of capacity `N`. -/
def FilledTo (s : IoSys) (n N : Nat) : Prop :=
  s.fdm.sfSize = N ∧
    ∀ i, 3 ≤ i → i < N → (s.fdm.sfDescriptorsArray i ≠ none ↔ i < 3 + n)

/-- A pool of two slots (objects 100 and 101) after `aquire`, `aquire` and
`release (100)`: slot 0 is free, slot 1 holds object 101. -/
def poolGap : Pool :=
  (Pool.release (Pool.aquire (Pool.aquire (Pool.create 2 100)).2).2 100).2

/-- A pool of two slots (objects 100 and 101) after one `aquire`: slot 0 is in use. -/
def poolOne : Pool :=
  (Pool.aquire (Pool.create 2 100)).2

/-- A state with an open socket: object 100, the first of a sockets pool of two, is
acquired and bound to descriptor 3 in a table of capacity 5. -/
def ioSocketOpen : IoSys :=
  (FileDescriptorsManager.alloc
    { bootIo 5 (fun o => if o = 100 ∨ o = 101 then IoType.SOCKET else IoType.DEVICE) with
      socketsPool := some poolOne } 100).2

def EFAULT : Int := 14
def EMFILE : Int := 24

/-- The largest value of `ssize_t`, a signed integer of 64 bits on the hosts the tests
run on. -/
def SSIZE_MAX : Int := 2 ^ 63 - 1

/-- The value an `ssize_t` holds when the value `x` is stored in it: `x` itself within
`[-2^63, 2^63)`, and `x` reduced modulo `2^64` into that range otherwise, which is what
the compiled addition of two `ssize_t` leaves when it overflows. -/
def wrapSsize (x : Int) : Int := (x + 2 ^ 63) % 2 ^ 64 - 2 ^ 63

/-- What `open` needs from the device registry, the character devices and the
filesystems: the lookup `CharDevicesRegistry::identifyDevice (path)`, the open hook
`CharDevice::do_vopen (path, oflag, args)` and `FileSystem::open (path, oflag, args)`
(the object it returns, possibly null, and the value it stores in `errno`, if any). -/
structure OpenHooks where
  identifyDevice : CharPtr → Option IoObject
  do_vopen : IoSys → IoObject → CharPtr → Int → List Int → HookOutcome
  fsOpen : IoSys → FileSystem → CharPtr → Int → List Int → Option IoObject × Option Int

/-- The hooks of a socket used by `socket` and `accept`. -/
structure SocketHooks where
  do_socket : IoSys → IoObject → Int → Int → Int → HookOutcome
  do_accept : IoSys → IoObject → IoObject → Option Nat → Option Nat → HookOutcome

/-- The hooks behind `read`, `write`, `writev` and `fstat`. -/
structure RwHooks where
  do_read : IoSys → IoObject → Nat → Nat → HookOutcome
  do_write : IoSys → IoObject → Option Nat → Nat → HookOutcome
  do_fstat : IoSys → IoObject → Nat → HookOutcome

/-- `struct iovec`. -/
structure IoVec where
  iov_base : Option Nat
  iov_len : Nat
deriving DecidableEq, Repr

/-- The virtual hook `CharDevice::do_vopen (path, oflag, args)`. -/
def CharDevice.do_vopen (oh : OpenHooks) (s : IoSys) (io : IoObject) (path : CharPtr)
    (oflag : Int) (args : List Int) : Int × IoSys :=
  ((oh.do_vopen s io path oflag args).result,
    { s with
      errno := ((oh.do_vopen s io path oflag args).errno).getD s.errno
      calls := s.calls ++ [IoCall.do_vopen io path oflag] })

/-- The call `fs->open (path, oflag, args)` of `vopen`: FileSystem.cpp is not among the
sources, the filesystem hands back an object or null. -/
def FileSystem.open (oh : OpenHooks) (s : IoSys) (fs : FileSystem) (path : CharPtr)
    (oflag : Int) (args : List Int) : Option IoObject × IoSys :=
  ((oh.fsOpen s fs path oflag args).1,
    { s with
      errno := ((oh.fsOpen s fs path oflag args).2).getD s.errno
      calls := s.calls ++ [IoCall.fs_open fs path oflag] })

/-- The virtual hook `Socket::do_socket (domain, type, protocol)`. -/
def Socket.do_socket (sh : SocketHooks) (s : IoSys) (io : IoObject)
    (domain type protocol : Int) : Int × IoSys :=
  ((sh.do_socket s io domain type protocol).result,
    { s with
      errno := ((sh.do_socket s io domain type protocol).errno).getD s.errno
      calls := s.calls ++ [IoCall.do_socket io domain type protocol] })

/-- The virtual hook `Socket::do_accept (new_socket, address, address_len)`. -/
def Socket.do_accept (sh : SocketHooks) (s : IoSys) (io : IoObject) (new_socket : IoObject)
    (address address_len : Option Nat) : Int × IoSys :=
  ((sh.do_accept s io new_socket address address_len).result,
    { s with
      errno := ((sh.do_accept s io new_socket address address_len).errno).getD s.errno
      calls := s.calls ++ [IoCall.do_accept io new_socket] })

namespace IoObject

/-- The virtual hook `do_read (buf, nbyte)`. -/
def do_read (rh : RwHooks) (s : IoSys) (io : IoObject) (buf : Nat) (nbyte : Nat) :
    Int × IoSys :=
  ((rh.do_read s io buf nbyte).result,
    { s with
      errno := ((rh.do_read s io buf nbyte).errno).getD s.errno
      calls := s.calls ++ [IoCall.do_read io buf nbyte] })

/-- The virtual hook `do_write (buf, nbyte)`. -/
def do_write (rh : RwHooks) (s : IoSys) (io : IoObject) (buf : Option Nat) (nbyte : Nat) :
    Int × IoSys :=
  ((rh.do_write s io buf nbyte).result,
    { s with
      errno := ((rh.do_write s io buf nbyte).errno).getD s.errno
      calls := s.calls ++ [IoCall.do_write io buf nbyte] })

/-- The virtual hook `do_fstat (buf)`. -/
def do_fstat (rh : RwHooks) (s : IoSys) (io : IoObject) (buf : Nat) : Int × IoSys :=
  ((rh.do_fstat s io buf).result,
    { s with
      errno := ((rh.do_fstat s io buf).errno).getD s.errno
      calls := s.calls ++ [IoCall.do_fstat io buf] })

/-- `IO::allocFileDescriptor ()`. -/
def allocFileDescriptor (h : IoHooks) (s : IoSys) (io : IoObject) : Option IoObject × IoSys :=
  let r := FileDescriptorsManager.alloc s io
  if r.1 < 0 then
    let c := do_close h r.2 io
    (none, clearFileDescriptor c.2 io)
  else
    (some io, r.2)

/-- `IO::read (buf, nbyte)`. -/
def read (rh : RwHooks) (s : IoSys) (io : IoObject) (buf : Option Nat) (nbyte : Nat) :
    Int × IoSys :=
  match buf with
  | none => (-1, { s with errno := EFAULT })
  | some b => do_read rh { s with errno := 0 } io b nbyte

/-- `IO::write (buf, nbyte)`. -/
def write (rh : RwHooks) (s : IoSys) (io : IoObject) (buf : Option Nat) (nbyte : Nat) :
    Int × IoSys :=
  match buf with
  | none => (-1, { s with errno := EFAULT })
  | some b => do_write rh { s with errno := 0 } io (some b) nbyte

/-- The loop of `IO::do_writev` with `k` buffers left, at buffer `i`, `total` being the
value of the `ssize_t` accumulator: `total += ret` is an addition of `ssize_t`. -/
def do_writevLoop (rh : RwHooks) (io : IoObject) (iov : Nat → IoVec) :
    Nat → Nat → Int → IoSys → Int × IoSys
  | 0, _, total, s => (total, s)
  | k + 1, i, total, s =>
    let r := do_write rh s io (iov i).iov_base (iov i).iov_len
    if r.1 < 0 then (r.1, r.2)
    else do_writevLoop rh io iov k (i + 1) (wrapSsize (total + r.1)) r.2

/-- `IO::do_writev (iov, iovcnt)`, the default built on `do_write`. -/
def do_writev (rh : RwHooks) (s : IoSys) (io : IoObject) (iov : Nat → IoVec) (iovcnt : Int) :
    Int × IoSys :=
  do_writevLoop rh io iov iovcnt.toNat 0 0 s

/-- `IO::writev (iov, iovcnt)`. -/
def writev (rh : RwHooks) (s : IoSys) (io : IoObject) (iov : Option (Nat → IoVec))
    (iovcnt : Int) : Int × IoSys :=
  match iov with
  | none => (-1, { s with errno := EFAULT })
  | some v =>
    if iovcnt ≤ 0 then (-1, { s with errno := EINVAL })
    else do_writev rh { s with errno := 0 } io v iovcnt

/-- `IO::fstat (buf)`. -/
def fstat (rh : RwHooks) (s : IoSys) (io : IoObject) (buf : Option Nat) : Int × IoSys :=
  match buf with
  | none => (-1, { s with errno := EFAULT })
  | some b => do_fstat rh { s with errno := 0 } io b

end IoObject

/-- `vopen (path, oflag, args)`; the mount manager is only read, `identifyFileSystem`
rewriting the local copy `adjusted_path`. -/
def vopen (h : IoHooks) (oh : OpenHooks) (m : MountManager) (s : IoSys)
    (path : Option CharPtr) (oflag : Int) (args : List Int) : Option IoObject × IoSys :=
  match path with
  | none => (none, { s with errno := EFAULT })
  | some p =>
    if p.str = [] then (none, { s with errno := ENOENT })
    else
      let s0 := { s with errno := 0 }
      match oh.identifyDevice p with
      | some io =>
        let r := CharDevice.do_vopen oh s0 io p oflag args
        if r.1 < 0 then (none, r.2)
        else IoObject.allocFileDescriptor h r.2 io
      | none =>
        let found := MountManager.identifyFileSystem m p none
        match found.fs with
        | none => (none, { s0 with errno := EBADF })
        | some fs =>
          let r := FileSystem.open oh s0 fs found.path1 oflag args
          match r.1 with
          | none => (none, r.2)
          | some io => IoObject.allocFileDescriptor h r.2 io

/-- `socket (domain, type, protocol)`; `none` stands for the null dereference
`NetStack::getSocketsPool ()->aquire ()` without a sockets pool. -/
def socket (h : IoHooks) (sh : SocketHooks) (s : IoSys) (domain type protocol : Int) :
    Option (Option IoObject × IoSys) :=
  let s0 := { s with errno := 0 }
  match s0.socketsPool with
  | none => none
  | some pool =>
    let s1 := { s0 with socketsPool := some (Pool.aquire pool).2 }
    match (Pool.aquire pool).1 with
    | none => some (none, { s1 with errno := ENFILE })
    | some sock =>
      let r := Socket.do_socket sh s1 sock domain type protocol
      if r.1 < 0 then
        some (none, (IoObject.close h r.2 sock).2)
      else
        some (some sock, (IoObject.allocFileDescriptor h r.2 sock).2)

/-- `Socket::accept (address, address_len)` on the socket `io`. -/
def Socket.accept (h : IoHooks) (sh : SocketHooks) (s : IoSys) (io : IoObject)
    (address address_len : Option Nat) : Option IoObject × IoSys :=
  let s0 := { s with errno := 0 }
  match s0.socketsPool with
  | none => (none, { s0 with errno := EMFILE })
  | some pool =>
    let s1 := { s0 with socketsPool := some (Pool.aquire pool).2 }
    match (Pool.aquire pool).1 with
    | none => (none, { s1 with errno := EMFILE })
    | some new_socket =>
      let r := Socket.do_accept sh s1 io new_socket address address_len
      if r.1 < 0 then (none, r.2)
      else IoObject.allocFileDescriptor h r.2 new_socket

/-- Close hooks that report success, as those of the tests. -/
def ioHooksOk : IoHooks := ⟨fun _ _ => ⟨0, none⟩⟩

/-- The registry and open hooks of the device test: "/dev/test" is the character device
50, its open hook succeeds; a filesystem hands back object 60. -/
def openHooksTest : OpenHooks :=
  ⟨fun p => if p.str = "/dev/test".toList then some 50 else none,
    fun _ _ _ _ _ => ⟨0, none⟩, fun _ _ _ _ _ => (some 60, none)⟩

/-- The state of the device test at start: a descriptor table of capacity 5, the device
50 constructed and not open. -/
def ioDeviceBoot : IoSys :=
  bootIo 5 (fun o => if o = 50 then IoType.DEVICE else IoType.NOTSET)

/-- The state of the device test after the first `open ("/dev/test", 0, 123)`: the device
is bound to descriptor 3. -/
def ioDeviceOpen : IoSys :=
  (vopen ioHooksOk openHooksTest tableNested ioDeviceBoot (some (CharPtr.lit "/dev/test"))
    0 [123]).2

/-- The state after the first `k` buffers of the vector were written one after the
other, each by one call of the write hook. -/
def writeState (rh : RwHooks) (io : IoObject) (iov : Nat → IoVec) (s : IoSys) : Nat → IoSys
  | 0 => s
  | k + 1 =>
    (IoObject.do_write rh (writeState rh io iov s k) io (iov k).iov_base (iov k).iov_len).2

/-- The result of the write hook for buffer `k`, called after the buffers before it. -/
def writeResult (rh : RwHooks) (io : IoObject) (iov : Nat → IoVec) (s : IoSys) (k : Nat) : Int :=
  (rh.do_write (writeState rh io iov s k) io (iov k).iov_base (iov k).iov_len).result

/-- Hooks for the data transfer calls: `read` and `fstat` succeed with 0, `write` accepts
the whole buffer on its first two calls and fails with -1 and `errno` 5 afterwards. -/
def rwHooksTest : RwHooks :=
  ⟨fun _ _ _ _ => ⟨0, none⟩,
    fun s _ _ n => if s.calls.length < 2 then ⟨(n : Int), none⟩ else ⟨-1, some 5⟩,
    fun _ _ _ => ⟨0, none⟩⟩

/-- A vector whose buffer `i` is at address `i` and has length `10 + i`. -/
def iovTest : Nat → IoVec := fun i => ⟨some i, 10 + i⟩

/-- Hooks whose `write` accepts every buffer whole: it returns `nbyte`. -/
def rwHooksWhole : RwHooks :=
  ⟨fun _ _ _ _ => ⟨0, none⟩, fun _ _ _ n => ⟨(n : Int), none⟩, fun _ _ _ => ⟨0, none⟩⟩

/-- A vector whose buffers all have the length `SSIZE_MAX`, the largest count a single
`write` can report. -/
def iovHuge : Nat → IoVec := fun i => ⟨some i, SSIZE_MAX.toNat⟩

/-- Socket hooks that report failure: -1, with `errno` set to 5 (EIO). -/
def socketHooksFail : SocketHooks :=
  ⟨fun _ _ _ _ _ => ⟨-1, some 5⟩, fun _ _ _ _ _ => ⟨-1, some 5⟩⟩

/-- Socket hooks that report success. -/
def socketHooksOk : SocketHooks :=
  ⟨fun _ _ _ _ _ => ⟨0, none⟩, fun _ _ _ _ _ => ⟨0, none⟩⟩

/-- A state with a sockets pool of two free slots (objects 100 and 101) and a descriptor
table of capacity 3, in which no index can be handed out. -/
def ioSocketsNoRoom : IoSys :=
  { bootIo 3 (fun o => if o = 100 ∨ o = 101 then IoType.SOCKET else IoType.DEVICE) with
    socketsPool := some (Pool.create 2 100) }

/-- The in-use flags of the sockets pool, slot by slot. -/
def poolFlags (s : IoSys) : Option (List Bool) :=
  match s.socketsPool with
  | some p => some ((List.range p.fSize).map p.fInUse)
  | none => none

/-- The descriptor table, slot by slot. -/
def tableSlots (s : IoSys) : List (Option IoObject) :=
  (List.range s.fdm.sfSize).map s.fdm.sfDescriptorsArray

/-- A slot of the descriptor table is bound to an object exactly when the descriptor
stored on the object is the index of the slot. -/
def Consistent (s : IoSys) : Prop :=
  ∀ (d : Nat) (io : IoObject), d < s.fdm.sfSize →
    (s.fdm.sfDescriptorsArray d = some io ↔ IoObject.getFileDescriptor s io = (d : Int))

/-! # Theorems -/

/-! ## Facts about C strings -/

theorem toNat_ne_zero_of_ne_NUL {c : Char} (h : c ≠ NUL) : (c.toNat : Int) ≠ 0 := by
  intro h0
  apply h
  have h1 : c.toNat = 0 := by exact_mod_cast h0
  have h2 : Char.ofNat c.toNat = c := Char.ofNat_toNat c
  rw [h1] at h2
  exact h2.symm

theorem toNat_sub_ne_zero {a b : Char} (h : a ≠ b) : (a.toNat : Int) - (b.toNat : Int) ≠ 0 := by
  intro h0
  apply h
  have h1 : a.toNat = b.toNat := by omega
  have ha : Char.ofNat a.toNat = a := Char.ofNat_toNat a
  have hb : Char.ofNat b.toNat = b := Char.ofNat_toNat b
  rw [← ha, ← hb, h1]

theorem CharPtr.str_ne_NUL (p : CharPtr) : ∀ c ∈ p.str, c ≠ NUL := by
  intro c hc
  unfold CharPtr.str at hc
  split at hc
  · have := List.mem_takeWhile_imp hc
    simpa using this
  · simp at hc

theorem strncmpChars_eq_zero_iff (a : List Char) (ha : ∀ c ∈ a, c ≠ NUL) (b : List Char) :
    strncmpChars a b a.length = 0 ↔ a <+: b := by
  induction a generalizing b with
  | nil => simp [strncmpChars]
  | cons x xs ih =>
    have hx : x ≠ NUL := ha x (List.mem_cons_self _ _)
    have hxs : ∀ c ∈ xs, c ≠ NUL := fun c hc => ha c (List.mem_cons_of_mem _ hc)
    cases b with
    | nil =>
      simp only [List.length_cons, strncmpChars]
      constructor
      · intro h
        exact absurd (by simpa using h) (toNat_ne_zero_of_ne_NUL hx)
      · intro h
        simp at h
    | cons y ys =>
      simp only [List.length_cons, strncmpChars]
      by_cases hxy : x = y
      · subst hxy
        simp only [if_true]
        rw [ih hxs ys]
        simp [List.cons_prefix_cons]
      · simp only [if_neg hxy]
        constructor
        · intro h
          exact absurd h (toNat_sub_ne_zero hxy)
        · intro h
          rw [List.cons_prefix_cons] at h
          exact absurd h.1 hxy

theorem strncmp_eq_zero_iff (mp p : CharPtr) :
    strncmp mp p (strlen mp) = 0 ↔ mp.str <+: p.str :=
  strncmpChars_eq_zero_iff mp.str mp.str_ne_NUL p.str

theorem strcmpChars_eq_zero_iff (a : List Char) (ha : ∀ c ∈ a, c ≠ NUL) (b : List Char)
    (hb : ∀ c ∈ b, c ≠ NUL) : strcmpChars a b = 0 ↔ a = b := by
  induction a generalizing b with
  | nil =>
    cases b with
    | nil => simp [strcmpChars]
    | cons y ys =>
      have hy : y ≠ NUL := hb y (List.mem_cons_self _ _)
      simp only [strcmpChars]
      constructor
      · intro h
        exact absurd (by simpa using h) (toNat_ne_zero_of_ne_NUL hy)
      · intro h
        simp at h
  | cons x xs ih =>
    have hx : x ≠ NUL := ha x (List.mem_cons_self _ _)
    have hxs : ∀ c ∈ xs, c ≠ NUL := fun c hc => ha c (List.mem_cons_of_mem _ hc)
    cases b with
    | nil =>
      simp only [strcmpChars]
      constructor
      · intro h
        exact absurd (by simpa using h) (toNat_ne_zero_of_ne_NUL hx)
      · intro h
        simp at h
    | cons y ys =>
      have hys : ∀ c ∈ ys, c ≠ NUL := fun c hc => hb c (List.mem_cons_of_mem _ hc)
      simp only [strcmpChars]
      by_cases hxy : x = y
      · subst hxy
        simp only [if_true]
        rw [ih hxs ys hys]
        simp
      · simp only [if_neg hxy]
        constructor
        · intro h
          exact absurd h (toNat_sub_ne_zero hxy)
        · intro h
          exact absurd (List.cons.inj h).1 hxy

theorem strcmp_eq_zero_iff (a b : CharPtr) : strcmp a b = 0 ↔ a.str = b.str :=
  strcmpChars_eq_zero_iff a.str a.str_ne_NUL b.str b.str_ne_NUL

theorem takeWhile_drop_of_le (f : Char → Bool) (l : List Char) (k : Nat)
    (hk : k ≤ (l.takeWhile f).length) :
    (l.drop k).takeWhile f = (l.takeWhile f).drop k := by
  induction l generalizing k with
  | nil => simp
  | cons x xs ih =>
    cases k with
    | zero => simp
    | succ k =>
      by_cases hx : f x = true
      · simp only [List.takeWhile_cons, hx, if_true, List.length_cons] at hk ⊢
        simp only [List.drop_succ_cons]
        exact ih k (by omega)
      · simp [List.takeWhile_cons, hx] at hk

/-- Advancing a pointer by `len - 1` characters inside its string drops the
first `len - 1` characters of the string. -/
theorem CharPtr.str_add_sub_one (p : CharPtr) (len : Nat) (h1 : 1 ≤ len)
    (h2 : len - 1 ≤ p.str.length) :
    ((p.add len).add (-1)).str = p.str.drop (len - 1) := by
  unfold CharPtr.str CharPtr.add at *
  simp only
  by_cases hoff : 0 ≤ p.off
  · simp only [hoff, if_true] at h2 ⊢
    have h3 : 0 ≤ p.off + (len : Int) + -1 := by omega
    simp only [h3, if_true]
    have h4 : (p.off + (len : Int) + -1).toNat = p.off.toNat + (len - 1) := by omega
    rw [h4, ← List.drop_drop]
    exact takeWhile_drop_of_le _ _ _ h2
  · simp only [hoff, if_false, List.length_nil] at h2 ⊢
    have h3 : ¬ (0 ≤ p.off + (len : Int) + -1) := by omega
    simp [h3]

/-! ## Searching an index range -/

/-- Among the indices below `n` that satisfy `P` there is a first one. -/
theorem exists_first_index (P : Nat → Prop) (n : Nat) (hex : ∃ i, i < n ∧ P i) :
    ∃ i, i < n ∧ P i ∧ ∀ j, j < i → ¬ P j := by
  classical
  obtain ⟨i, hi, hm⟩ := hex
  have hex2 : ∃ i, P i := ⟨i, hm⟩
  refine ⟨Nat.find hex2, ?_, Nat.find_spec hex2, fun j hj => Nat.find_min hex2 hj⟩
  exact lt_of_le_of_lt (Nat.find_min' hex2 hm) hi

/-! ## The scan of `identifyFileSystem` -/

theorem matchesAt_iff (m : MountManager) (path : CharPtr) (i : Nat) :
    MatchesAt m path i ↔ ∃ mp, m.sfPathsArray i = some mp ∧ mp.str <+: path.str := by
  unfold MatchesAt
  cases h : m.sfPathsArray i with
  | none => simp
  | some mp => simp

theorem identifyLoop_hit (m : MountManager) (path1 : CharPtr) (path2 : Option (Option CharPtr)) :
    ∀ (k i i0 : Nat) (mp : CharPtr), i ≤ i0 → i0 < i + k →
      m.sfPathsArray i0 = some mp → mp.str <+: path1.str →
      (∀ j, i ≤ j → j < i0 → ¬ MatchesAt m path1 j) →
      MountManager.identifyLoop m path1 path2 k i =
        ⟨m.sfFileSystemsArray i0, (path1.add (strlen mp)).add (-1),
          advanced path2 (strlen mp)⟩ := by
  intro k
  induction k with
  | zero => intro i i0 mp h1 h2; omega
  | succ k ih =>
    intro i i0 mp h1 h2 hp hpre hfirst
    by_cases hi : i = i0
    · subst hi
      simp only [MountManager.identifyLoop, hp, (strncmp_eq_zero_iff mp path1).2 hpre, if_true]
      rfl
    · have hlt : i < i0 := by omega
      have hno : ¬ MatchesAt m path1 i := hfirst i (le_refl _) hlt
      have hrec := ih (i + 1) i0 mp (by omega) (by omega) hp hpre
        (fun j hj1 hj2 => hfirst j (by omega) hj2)
      cases hq : m.sfPathsArray i with
      | none => simp only [MountManager.identifyLoop, hq]; exact hrec
      | some q =>
        have hnq : ¬ q.str <+: path1.str := by
          intro hq2
          exact hno ((matchesAt_iff m path1 i).2 ⟨q, hq, hq2⟩)
        have hne : ¬ strncmp q path1 (strlen q) = 0 := fun h0 =>
          hnq ((strncmp_eq_zero_iff q path1).1 h0)
        simp only [MountManager.identifyLoop, hq, hne, if_false]
        exact hrec

theorem identifyLoop_miss (m : MountManager) (path1 : CharPtr) (path2 : Option (Option CharPtr)) :
    ∀ (k i : Nat), (∀ j, i ≤ j → j < i + k → ¬ MatchesAt m path1 j) →
      MountManager.identifyLoop m path1 path2 k i = ⟨m.sfRoot, path1, path2⟩ := by
  intro k
  induction k with
  | zero =>
    intro i _
    simp only [MountManager.identifyLoop]
    cases m.sfRoot <;> rfl
  | succ k ih =>
    intro i hno
    have hrec := ih (i + 1) (fun j hj1 hj2 => hno j (by omega) (by omega))
    cases hq : m.sfPathsArray i with
    | none => simp only [MountManager.identifyLoop, hq]; exact hrec
    | some q =>
      have hnq : ¬ q.str <+: path1.str := by
        intro hq2
        exact hno i (le_refl _) (by omega) ((matchesAt_iff m path1 i).2 ⟨q, hq, hq2⟩)
      have hne : ¬ strncmp q path1 (strlen q) = 0 := fun h0 =>
        hnq ((strncmp_eq_zero_iff q path1).1 h0)
      simp only [MountManager.identifyLoop, hq, hne, if_false]
      exact hrec

/-- The full result of `identifyFileSystem` when entry `i0` is the first match. -/
theorem identifyFileSystem_first (m : MountManager) (path1 : CharPtr)
    (path2 : Option (Option CharPtr)) (i0 : Nat) (mp : CharPtr) (hi : i0 < m.sfSize)
    (hp : m.sfPathsArray i0 = some mp) (hpre : mp.str <+: path1.str)
    (hfirst : ∀ j, j < i0 → ¬ MatchesAt m path1 j) :
    MountManager.identifyFileSystem m path1 path2 =
      ⟨m.sfFileSystemsArray i0, (path1.add (strlen mp)).add (-1),
        advanced path2 (strlen mp)⟩ :=
  identifyLoop_hit m path1 path2 m.sfSize 0 i0 mp (Nat.zero_le _) (by omega) hp hpre
    (fun j _ hj => hfirst j hj)

/-! ## `identifyFileSystem` -/

/-- C1: for every mount table and every path, if at least one occupied entry has a
mount path that is a byte-for-byte prefix of the path, `identifyFileSystem` returns
the filesystem stored at the lowest table index among those entries. -/
theorem identifyFileSystem_returns_first_match (m : MountManager) (path1 : CharPtr)
    (path2 : Option (Option CharPtr))
    (hex : ∃ i, i < m.sfSize ∧ MatchesAt m path1 i) :
    ∃ i, i < m.sfSize ∧ MatchesAt m path1 i ∧ (∀ j, j < i → ¬ MatchesAt m path1 j) ∧
      (MountManager.identifyFileSystem m path1 path2).fs = m.sfFileSystemsArray i := by
  obtain ⟨i, hi, hm, hfirst⟩ := exists_first_index (MatchesAt m path1) m.sfSize hex
  obtain ⟨mp, hp, hpre⟩ := (matchesAt_iff m path1 i).1 hm
  refine ⟨i, hi, hm, hfirst, ?_⟩
  rw [identifyFileSystem_first m path1 path2 i mp hi hp hpre hfirst]

/-- C1 at the table holding "/a/" then "/a/b/" and the path "/a/b/c". -/
theorem identifyFileSystem_returns_first_match_witness :
    (∃ i, i < tableNested.sfSize ∧ MatchesAt tableNested (CharPtr.lit "/a/b/c") i) ∧
    ∃ i, i < tableNested.sfSize ∧ MatchesAt tableNested (CharPtr.lit "/a/b/c") i ∧
      (∀ j, j < i → ¬ MatchesAt tableNested (CharPtr.lit "/a/b/c") j) ∧
      (MountManager.identifyFileSystem tableNested (CharPtr.lit "/a/b/c") none).fs =
        tableNested.sfFileSystemsArray i :=
  ⟨⟨1, by decide, by decide⟩,
    identifyFileSystem_returns_first_match tableNested (CharPtr.lit "/a/b/c") none
      ⟨1, by decide, by decide⟩⟩

theorem drop_of_getLast (a r : List Char) (c : Char) (h : a.getLast? = some c) :
    (a ++ r).drop (a.length - 1) = c :: r := by
  obtain ⟨body, hbody⟩ : ∃ body, a = body ++ [c] := by
    rcases List.eq_nil_or_concat a with h0 | ⟨body, x, hx⟩
    · subst h0; simp at h
    · subst hx
      simp at h
      subst h
      exact ⟨body, by simp⟩
  subst hbody
  simp

/-- C2: when `identifyFileSystem` selects the occupied entry `i` whose mount path `mp`
ends in '/', for a path `mp ++ r`, the primary path is left designating '/' followed
by `r`, which is the path with its first `|mp| - 1` characters dropped; a non-null
secondary path that also starts with `mp` is rewritten the same way. -/
theorem identifyFileSystem_rewrites_paths (m : MountManager) (path1 : CharPtr)
    (path2 : Option (Option CharPtr)) (i : Nat) (mp : CharPtr) (r : List Char)
    (hi : i < m.sfSize) (hp : m.sfPathsArray i = some mp)
    (hfirst : ∀ j, j < i → ¬ MatchesAt m path1 j)
    (hsep : mp.str.getLast? = some '/') (hpath : path1.str = mp.str ++ r) :
    (MountManager.identifyFileSystem m path1 path2).fs = m.sfFileSystemsArray i ∧
    (MountManager.identifyFileSystem m path1 path2).path1.str = '/' :: r ∧
    (MountManager.identifyFileSystem m path1 path2).path1.str
      = path1.str.drop (mp.str.length - 1) ∧
    ∀ (p2 : CharPtr) (r2 : List Char), path2 = some (some p2) → p2.str = mp.str ++ r2 →
      ∃ q, (MountManager.identifyFileSystem m path1 path2).path2 = some (some q) ∧
        q.str = '/' :: r2 ∧ q.str = p2.str.drop (mp.str.length - 1) := by
  have hpre : mp.str <+: path1.str := ⟨r, hpath.symm⟩
  have hlen : 1 ≤ strlen mp := by
    unfold strlen
    cases hs : mp.str with
    | nil => rw [hs] at hsep; simp at hsep
    | cons x xs => simp
  have hadv : ∀ (p : CharPtr) (t : List Char), p.str = mp.str ++ t →
      ((p.add (strlen mp)).add (-1)).str = '/' :: t ∧
      ((p.add (strlen mp)).add (-1)).str = p.str.drop (mp.str.length - 1) := by
    intro p t hpt
    have h2 : strlen mp - 1 ≤ p.str.length := by
      rw [hpt]; unfold strlen; simp; omega
    have h3 := CharPtr.str_add_sub_one p (strlen mp) hlen h2
    refine ⟨?_, h3⟩
    rw [h3, hpt]
    exact drop_of_getLast mp.str t '/' hsep
  rw [identifyFileSystem_first m path1 path2 i mp hi hp hpre hfirst]
  refine ⟨rfl, (hadv path1 r hpath).1, (hadv path1 r hpath).2, ?_⟩
  intro p2 r2 h2 hp2
  subst h2
  exact ⟨(p2.add (strlen mp)).add (-1), rfl, (hadv p2 r2 hp2).1, (hadv p2 r2 hp2).2⟩

/-- C2 at the paths of the tests: with "/fs1/" mounted, "/fs1/babu" becomes "/babu"
and the secondary path "/fs1/riba" becomes "/riba". -/
theorem identifyFileSystem_rewrites_paths_witness :
    (MountManager.identifyFileSystem tableFs1 (CharPtr.lit "/fs1/babu")
        (some (some (CharPtr.lit "/fs1/riba")))).path1.str = "/babu".toList ∧
    ∃ q, (MountManager.identifyFileSystem tableFs1 (CharPtr.lit "/fs1/babu")
        (some (some (CharPtr.lit "/fs1/riba")))).path2 = some (some q) ∧
      q.str = "/riba".toList := by
  have h := identifyFileSystem_rewrites_paths tableFs1 (CharPtr.lit "/fs1/babu")
    (some (some (CharPtr.lit "/fs1/riba"))) 0 (CharPtr.lit "/fs1/") "babu".toList
    (by decide) (by decide) (by intro j hj; omega) (by decide) (by decide)
  obtain ⟨_, h1, _, h2⟩ := h
  obtain ⟨q, hq1, hq2, _⟩ := h2 (CharPtr.lit "/fs1/riba") "riba".toList rfl (by decide)
  exact ⟨h1, q, hq1, hq2⟩

/-- C3: when no occupied entry's mount path is a prefix of the path,
`identifyFileSystem` leaves the primary and the secondary path unchanged and returns
`sfRoot`: the root filesystem if one has been set, and null otherwise. -/
theorem identifyFileSystem_no_match (m : MountManager) (path1 : CharPtr)
    (path2 : Option (Option CharPtr))
    (hno : ∀ i, i < m.sfSize → ¬ MatchesAt m path1 i) :
    MountManager.identifyFileSystem m path1 path2 = ⟨m.sfRoot, path1, path2⟩ :=
  identifyLoop_miss m path1 path2 m.sfSize 0 (fun j _ hj => hno j (by omega))

/-- C3 at the socket test: with only "/fs1/" mounted, "/baburiba" resolves to the
root filesystem and is left untouched. -/
theorem identifyFileSystem_no_match_witness :
    (∀ i, i < tableFs1.sfSize → ¬ MatchesAt tableFs1 (CharPtr.lit "/baburiba") i) ∧
    MountManager.identifyFileSystem tableFs1 (CharPtr.lit "/baburiba") (some none) =
      ⟨some 0, CharPtr.lit "/baburiba", some none⟩ :=
  ⟨by decide,
    identifyFileSystem_no_match tableFs1 (CharPtr.lit "/baburiba") (some none) (by decide)⟩

/-- C4 fails as stated: with "/a/" stored before "/a/b/", the longest registered
prefix of "/a/b/c" is "/a/b/" at index 1, yet the filesystem returned is not the
one stored there. -/
theorem identifyFileSystem_not_longest :
    ¬ (∀ i, LongestMatchAt tableNested (CharPtr.lit "/a/b/c") i →
        (MountManager.identifyFileSystem tableNested (CharPtr.lit "/a/b/c") none).fs =
          tableNested.sfFileSystemsArray i) := by
  intro h
  have h1 : LongestMatchAt tableNested (CharPtr.lit "/a/b/c") 1 :=
    ⟨by decide, by decide, by decide⟩
  have h2 := h 1 h1
  revert h2
  decide

/-- C4, amended: `identifyFileSystem` returns the filesystem of the first entry in
table order whose mount path is a prefix of the path; whenever no matching entry is
stored before a longer matching one, that entry holds a longest registered mount
path that is a prefix of the path. -/
theorem identifyFileSystem_longest_when_ordered (m : MountManager) (path1 : CharPtr)
    (path2 : Option (Option CharPtr))
    (hord : ∀ i j, i < j → j < m.sfSize → MatchesAt m path1 i → MatchesAt m path1 j →
      mountLen m j ≤ mountLen m i)
    (hex : ∃ i, i < m.sfSize ∧ MatchesAt m path1 i) :
    ∃ i, LongestMatchAt m path1 i ∧ (∀ j, j < i → ¬ MatchesAt m path1 j) ∧
      (MountManager.identifyFileSystem m path1 path2).fs = m.sfFileSystemsArray i := by
  obtain ⟨i, hi, hm, hfirst⟩ := exists_first_index (MatchesAt m path1) m.sfSize hex
  obtain ⟨mp, hp, hpre⟩ := (matchesAt_iff m path1 i).1 hm
  refine ⟨i, ⟨hi, hm, ?_⟩, hfirst, ?_⟩
  · intro j hj hmj
    rcases Nat.lt_trichotomy i j with hlt | heq | hgt
    · exact hord i j hlt hj hm hmj
    · subst heq; exact le_refl _
    · exact absurd hmj (hfirst j hgt)
  · rw [identifyFileSystem_first m path1 path2 i mp hi hp hpre hfirst]

/-- C4, amended, at a table holding "/a/b/" before "/a/": "/a/b/c" resolves to the
entry with the longest prefix. -/
theorem identifyFileSystem_longest_when_ordered_witness :
    ∃ i, LongestMatchAt tableLongestFirst (CharPtr.lit "/a/b/c") i ∧
      (∀ j, j < i → ¬ MatchesAt tableLongestFirst (CharPtr.lit "/a/b/c") j) ∧
      (MountManager.identifyFileSystem tableLongestFirst (CharPtr.lit "/a/b/c") none).fs =
        tableLongestFirst.sfFileSystemsArray i :=
  identifyFileSystem_longest_when_ordered tableLongestFirst (CharPtr.lit "/a/b/c") none
    (by
      intro i j hij hj _ _
      have hj1 : j = 1 := by
        have : j < 2 := hj
        omega
      have hi0 : i = 0 := by omega
      subst hj1
      subst hi0
      decide)
    ⟨0, by decide, by decide⟩

/-! ## The loops of `mount` and `umount` -/

theorem pathAt_iff (m : MountManager) (path : CharPtr) (i : Nat) :
    PathAt m path i ↔ ∃ mp, m.sfPathsArray i = some mp ∧ mp.str = path.str := by
  unfold PathAt
  cases h : m.sfPathsArray i with
  | none => simp
  | some mp => simp

theorem mountBusyLoop_true (m : MountManager) (path : CharPtr) :
    ∀ (k i i0 : Nat), i ≤ i0 → i0 < i + k → PathAt m path i0 →
      MountManager.mountBusyLoop m path k i = true := by
  intro k
  induction k with
  | zero => intro i i0 h1 h2; omega
  | succ k ih =>
    intro i i0 h1 h2 hp
    by_cases hi : i = i0
    · subst hi
      obtain ⟨mp, hmp, heq⟩ := (pathAt_iff m path i).1 hp
      simp [MountManager.mountBusyLoop, hmp, (strcmp_eq_zero_iff mp path).2 heq]
    · have hrec := ih (i + 1) i0 (by omega) (by omega) hp
      cases hq : m.sfPathsArray i with
      | none => simp only [MountManager.mountBusyLoop, hq]; exact hrec
      | some q =>
        simp only [MountManager.mountBusyLoop, hq]
        split
        · rfl
        · exact hrec

theorem mountBusyLoop_false (m : MountManager) (path : CharPtr) :
    ∀ (k i : Nat), (∀ j, i ≤ j → j < i + k → ¬ PathAt m path j) →
      MountManager.mountBusyLoop m path k i = false := by
  intro k
  induction k with
  | zero => intro i _; rfl
  | succ k ih =>
    intro i hno
    have hrec := ih (i + 1) (fun j hj1 hj2 => hno j (by omega) (by omega))
    cases hq : m.sfPathsArray i with
    | none => simp only [MountManager.mountBusyLoop, hq]; exact hrec
    | some q =>
      have hne : ¬ strcmp q path = 0 := fun h0 =>
        hno i (le_refl _) (by omega)
          ((pathAt_iff m path i).2 ⟨q, hq, (strcmp_eq_zero_iff q path).1 h0⟩)
      simp only [MountManager.mountBusyLoop, hq, hne, if_false]
      exact hrec

theorem mountStoreLoop_free (h : Hooks) (s : Sys) (fs : FileSystem) (path : CharPtr)
    (blockDevice : Option BlockDevice) (flags : Nat) :
    ∀ (k i i0 : Nat), i ≤ i0 → i0 < i + k → s.mm.sfFileSystemsArray i0 = none →
      (∀ j, i ≤ j → j < i0 → s.mm.sfFileSystemsArray j ≠ none) →
      MountManager.mountStoreLoop h s fs path blockDevice flags k i =
        (0, { mm := { s.mm with
                      sfFileSystemsArray := setAt s.mm.sfFileSystemsArray i0 (some fs)
                      sfPathsArray := setAt s.mm.sfPathsArray i0 (some path) }
              errno := s.errno
              blockDevice := setAt s.blockDevice fs blockDevice
              calls := s.calls ++ [Call.setBlockDevice fs blockDevice] ++
                [Call.do_mount fs flags] }) := by
  intro k
  induction k with
  | zero => intro i i0 h1 h2; omega
  | succ k ih =>
    intro i i0 h1 h2 hfree hlow
    by_cases hi : i = i0
    · subst hi
      simp only [MountManager.mountStoreLoop, hfree]
      rfl
    · have hocc : s.mm.sfFileSystemsArray i ≠ none := hlow i (le_refl _) (by omega)
      have hrec := ih (i + 1) i0 (by omega) (by omega) hfree
        (fun j hj1 hj2 => hlow j (by omega) hj2)
      cases hq : s.mm.sfFileSystemsArray i with
      | none => exact absurd hq hocc
      | some g => simp only [MountManager.mountStoreLoop, hq]; exact hrec

theorem mountStoreLoop_full (h : Hooks) (s : Sys) (fs : FileSystem) (path : CharPtr)
    (blockDevice : Option BlockDevice) (flags : Nat) :
    ∀ (k i : Nat), (∀ j, i ≤ j → j < i + k → s.mm.sfFileSystemsArray j ≠ none) →
      MountManager.mountStoreLoop h s fs path blockDevice flags k i =
        (-1, { s with errno := ENOENT }) := by
  intro k
  induction k with
  | zero => intro i _; rfl
  | succ k ih =>
    intro i hfull
    have hocc : s.mm.sfFileSystemsArray i ≠ none := hfull i (le_refl _) (by omega)
    have hrec := ih (i + 1) (fun j hj1 hj2 => hfull j (by omega) (by omega))
    cases hq : s.mm.sfFileSystemsArray i with
    | none => exact absurd hq hocc
    | some g => simp only [MountManager.mountStoreLoop, hq]; exact hrec

theorem umountLoop_found (h : Hooks) (s : Sys) (path : CharPtr) (flags : Nat) :
    ∀ (k i i0 : Nat) (fs : FileSystem), i ≤ i0 → i0 < i + k → PathAt s.mm path i0 →
      s.mm.sfFileSystemsArray i0 = some fs →
      (∀ j, i ≤ j → j < i0 → ¬ PathAt s.mm path j) →
      MountManager.umountLoop h s path flags k i =
        some (0, { mm := { s.mm with
                           sfFileSystemsArray := setAt s.mm.sfFileSystemsArray i0 none
                           sfPathsArray := setAt s.mm.sfPathsArray i0 none }
                   errno := s.errno
                   blockDevice := setAt s.blockDevice fs none
                   calls := s.calls ++ [Call.do_sync fs] ++ [Call.do_unmount fs flags] ++
                     [Call.setBlockDevice fs none] }) := by
  intro k
  induction k with
  | zero => intro i i0 fs h1 h2; omega
  | succ k ih =>
    intro i i0 fs h1 h2 hp hfs hfirst
    by_cases hi : i = i0
    · subst hi
      obtain ⟨mp, hmp, heq⟩ := (pathAt_iff s.mm path i).1 hp
      simp only [MountManager.umountLoop, hmp, (strcmp_eq_zero_iff path mp).2 heq.symm,
        if_true, hfs]
      rfl
    · have hno : ¬ PathAt s.mm path i := hfirst i (le_refl _) (by omega)
      have hrec := ih (i + 1) i0 fs (by omega) (by omega) hp hfs
        (fun j hj1 hj2 => hfirst j (by omega) hj2)
      cases hq : s.mm.sfPathsArray i with
      | none => simp only [MountManager.umountLoop, hq]; exact hrec
      | some q =>
        have hne : ¬ strcmp path q = 0 := fun h0 =>
          hno ((pathAt_iff s.mm path i).2 ⟨q, hq, ((strcmp_eq_zero_iff path q).1 h0).symm⟩)
        simp only [MountManager.umountLoop, hq, hne, if_false]
        exact hrec

theorem umountLoop_not_found (h : Hooks) (s : Sys) (path : CharPtr) (flags : Nat) :
    ∀ (k i : Nat), (∀ j, i ≤ j → j < i + k → ¬ PathAt s.mm path j) →
      MountManager.umountLoop h s path flags k i = some (-1, { s with errno := EINVAL }) := by
  intro k
  induction k with
  | zero => intro i _; rfl
  | succ k ih =>
    intro i hno
    have hrec := ih (i + 1) (fun j hj1 hj2 => hno j (by omega) (by omega))
    cases hq : s.mm.sfPathsArray i with
    | none => simp only [MountManager.umountLoop, hq]; exact hrec
    | some q =>
      have hne : ¬ strcmp path q = 0 := fun h0 =>
        hno i (le_refl _) (by omega)
          ((pathAt_iff s.mm path i).2 ⟨q, hq, ((strcmp_eq_zero_iff path q).1 h0).symm⟩)
      simp only [MountManager.umountLoop, hq, hne, if_false]
      exact hrec

/-! ## `mount` -/

/-- The state `mount` leaves when `path` is new and `i` is the first slot whose
filesystem pointer is null. -/
theorem mount_eq_of_free (h : Hooks) (s : Sys) (fs : FileSystem) (path : CharPtr)
    (blockDevice : Option BlockDevice) (flags : Nat) (i : Nat)
    (hsep : path.str.getLast? = some '/')
    (hnew : ∀ j, j < s.mm.sfSize → ¬ PathAt s.mm path j)
    (hi : i < s.mm.sfSize) (hfree : s.mm.sfFileSystemsArray i = none)
    (hlow : ∀ j, j < i → s.mm.sfFileSystemsArray j ≠ none) :
    MountManager.mount h s fs path blockDevice flags =
      some (0, { mm := { s.mm with
                         sfFileSystemsArray := setAt s.mm.sfFileSystemsArray i (some fs)
                         sfPathsArray := setAt s.mm.sfPathsArray i (some path) }
                 errno := 0
                 blockDevice := setAt s.blockDevice fs blockDevice
                 calls := s.calls ++ [Call.setBlockDevice fs blockDevice] ++
                   [Call.do_mount fs flags] }) := by
  have hb := mountBusyLoop_false s.mm path s.mm.sfSize 0 (fun j _ hj => hnew j (by omega))
  have hst := mountStoreLoop_free h { s with errno := 0 } fs path blockDevice flags
    s.mm.sfSize 0 i (Nat.zero_le _) (by omega) hfree (fun j _ hj => hlow j hj)
  simp only [MountManager.mount, hsep, if_true, hb]
  exact congrArg some hst

/-- The state `mount` leaves when `path` is already the path of an entry. -/
theorem mount_eq_of_busy (h : Hooks) (s : Sys) (fs : FileSystem) (path : CharPtr)
    (blockDevice : Option BlockDevice) (flags : Nat)
    (hsep : path.str.getLast? = some '/')
    (hdup : ∃ i, i < s.mm.sfSize ∧ PathAt s.mm path i) :
    MountManager.mount h s fs path blockDevice flags =
      some (-1, { s with errno := EBUSY }) := by
  obtain ⟨i, hi, hp⟩ := hdup
  have hb := mountBusyLoop_true s.mm path s.mm.sfSize 0 i (Nat.zero_le _) (by omega) hp
  simp only [MountManager.mount, hsep, if_true, hb]

/-- C7: for every table in which some occupied entry's path string equals `path`
(a path ending in '/', as `mount` asserts), `mount` returns -1 with `errno` EBUSY,
changes no table entry (nor the root), attaches no block device to any filesystem
and invokes no hook. -/
theorem mount_busy (h : Hooks) (s : Sys) (fs : FileSystem) (path : CharPtr)
    (blockDevice : Option BlockDevice) (flags : Nat)
    (hsep : path.str.getLast? = some '/')
    (hdup : ∃ i, i < s.mm.sfSize ∧ PathAt s.mm path i) :
    ∃ s', MountManager.mount h s fs path blockDevice flags = some (-1, s') ∧
      s'.errno = EBUSY ∧ s'.mm = s.mm ∧ s'.blockDevice = s.blockDevice ∧
      s'.calls = s.calls :=
  ⟨_, mount_eq_of_busy h s fs path blockDevice flags hsep hdup, rfl, rfl, rfl, rfl⟩

/-- C7 at the socket test: "/fs1/" mounted a second time. -/
theorem mount_busy_witness :
    ∃ s', MountManager.mount hooksOk sysFs1 1 (CharPtr.lit "/fs1/") (some 11) 124
        = some (-1, s') ∧
      s'.errno = 16 ∧ s'.mm = sysFs1.mm ∧ s'.blockDevice = sysFs1.blockDevice ∧
      s'.calls = sysFs1.calls :=
  mount_busy hooksOk sysFs1 1 (CharPtr.lit "/fs1/") (some 11) 124 (by decide)
    ⟨0, by decide, by decide⟩

/-- The state `mount` leaves when `path` is new and no filesystem pointer is null. -/
theorem mount_eq_of_full (h : Hooks) (s : Sys) (fs : FileSystem) (path : CharPtr)
    (blockDevice : Option BlockDevice) (flags : Nat)
    (hsep : path.str.getLast? = some '/')
    (hnew : ∀ j, j < s.mm.sfSize → ¬ PathAt s.mm path j)
    (hfull : ∀ j, j < s.mm.sfSize → s.mm.sfFileSystemsArray j ≠ none) :
    MountManager.mount h s fs path blockDevice flags =
      some (-1, { s with errno := ENOENT }) := by
  have hb := mountBusyLoop_false s.mm path s.mm.sfSize 0 (fun j _ hj => hnew j (by omega))
  have hst := mountStoreLoop_full h { s with errno := 0 } fs path blockDevice flags
    s.mm.sfSize 0 (fun j _ hj => hfull j (by omega))
  simp only [MountManager.mount, hsep, if_true, hb]
  exact congrArg some hst

/-- C8: for every table with no free slot (no null filesystem pointer) and every
path (ending in '/', as `mount` asserts) that is not the path of an occupied entry,
`mount` returns -1 with the table-exhausted error, which is ENOENT; every entry (and
the root) stays intact, no block device is attached and no hook is invoked. -/
theorem mount_table_full (h : Hooks) (s : Sys) (fs : FileSystem) (path : CharPtr)
    (blockDevice : Option BlockDevice) (flags : Nat)
    (hsep : path.str.getLast? = some '/')
    (hnew : ∀ j, j < s.mm.sfSize → ¬ PathAt s.mm path j)
    (hfull : ∀ j, j < s.mm.sfSize → s.mm.sfFileSystemsArray j ≠ none) :
    ∃ s', MountManager.mount h s fs path blockDevice flags = some (-1, s') ∧
      s'.errno = ENOENT ∧ s'.mm = s.mm ∧ s'.blockDevice = s.blockDevice ∧
      s'.calls = s.calls :=
  ⟨_, mount_eq_of_full h s fs path blockDevice flags hsep hnew hfull, rfl, rfl, rfl, rfl⟩

/-- C8 at a full table of two slots: a third mount fails with ENOENT. -/
theorem mount_table_full_witness :
    ∃ s', MountManager.mount hooksOk sysNested 3 (CharPtr.lit "/fs3/") (some 13) 124
        = some (-1, s') ∧
      s'.errno = 2 ∧ s'.mm = sysNested.mm ∧ s'.blockDevice = sysNested.blockDevice ∧
      s'.calls = sysNested.calls :=
  mount_table_full hooksOk sysNested 3 (CharPtr.lit "/fs3/") (some 13) 124 (by decide)
    (by decide) (by decide)

/-! ## `umount` -/

/-- The state `umount` leaves when `i` is the first entry whose path equals `path`. -/
theorem umount_eq_of_found (h : Hooks) (s : Sys) (path : CharPtr) (flags : Nat)
    (i : Nat) (fs : FileSystem) (hi : i < s.mm.sfSize) (hp : PathAt s.mm path i)
    (hfs : s.mm.sfFileSystemsArray i = some fs)
    (hfirst : ∀ j, j < i → ¬ PathAt s.mm path j) :
    MountManager.umount h s path flags =
      some (0, { mm := { s.mm with
                         sfFileSystemsArray := setAt s.mm.sfFileSystemsArray i none
                         sfPathsArray := setAt s.mm.sfPathsArray i none }
                 errno := 0
                 blockDevice := setAt s.blockDevice fs none
                 calls := s.calls ++ [Call.do_sync fs] ++ [Call.do_unmount fs flags] ++
                   [Call.setBlockDevice fs none] }) :=
  umountLoop_found h { s with errno := 0 } path flags s.mm.sfSize 0 i fs (Nat.zero_le _)
    (by omega) hp hfs (fun j _ hj => hfirst j hj)

/-- The state `umount` leaves when no entry has the path `path`. -/
theorem umount_eq_of_not_found (h : Hooks) (s : Sys) (path : CharPtr) (flags : Nat)
    (hno : ∀ j, j < s.mm.sfSize → ¬ PathAt s.mm path j) :
    MountManager.umount h s path flags = some (-1, { s with errno := EINVAL }) :=
  umountLoop_not_found h { s with errno := 0 } path flags s.mm.sfSize 0
    (fun j _ hj => hno j (by omega))

/-- C10: for every table in which no occupied entry's path string equals `path`,
`umount` returns -1 with `errno` EINVAL, invokes no hook (no operation on any
filesystem object at all) and leaves the table and the root unchanged. -/
theorem umount_not_found (h : Hooks) (s : Sys) (path : CharPtr) (flags : Nat)
    (hno : ∀ j, j < s.mm.sfSize → ¬ PathAt s.mm path j) :
    ∃ s', MountManager.umount h s path flags = some (-1, s') ∧
      s'.errno = EINVAL ∧ s'.mm = s.mm ∧ s'.blockDevice = s.blockDevice ∧
      s'.calls = s.calls :=
  ⟨_, umount_eq_of_not_found h s path flags hno, rfl, rfl, rfl, rfl⟩

/-- C10 at the socket test: "/fs2/" is not mounted. -/
theorem umount_not_found_witness :
    ∃ s', MountManager.umount hooksOk sysFs1 (CharPtr.lit "/fs2/") 134 = some (-1, s') ∧
      s'.errno = 22 ∧ s'.mm = sysFs1.mm ∧ s'.blockDevice = sysFs1.blockDevice ∧
      s'.calls = sysFs1.calls :=
  umount_not_found hooksOk sysFs1 (CharPtr.lit "/fs2/") 134 (by decide)

/-! ## Table order and insertion order -/

/-- C5 fails as stated: on a table of two slots, after "/a/" (filesystem 1) and
"/a/b/" (filesystem 2) are mounted, "/a/" is unmounted and mounted again with
filesystem 3, the path "/a/b/c" resolves to filesystem 3, whose mount call is the
latest, while the earliest mounted entry whose path is a prefix is that of
filesystem 2. -/
theorem identifyFileSystem_not_insertion_order :
    ((boot 2).bind (fun s0 => runLog hooksOk opsRemount s0 [])).map
      (fun r => ((MountManager.identifyFileSystem r.1.mm (CharPtr.lit "/a/b/c") none).fs,
        earliestMounted r.2 (CharPtr.lit "/a/b/c"), r.2.map (fun e => e.2)))
      = some (some 3, some 2, [2, 3]) := by
  decide

theorem runLog_append (h : Hooks) (a b : List Op) :
    ∀ (s : Sys) (log : List (CharPtr × FileSystem)),
      runLog h (a ++ b) s log = (runLog h a s log).bind (fun r => runLog h b r.1 r.2) := by
  induction a with
  | nil => intro s log; rfl
  | cons op ops ih =>
    intro s log
    simp only [List.cons_append, runLog]
    cases step h s op with
    | none => rfl
    | some r => exact ih r.2 (record log op r.1)

/-- The filesystem `identifyFileSystem` returns, read off the list of occupied
entries. -/
theorem identifyLoop_fs_eq_find (m : MountManager) (path1 : CharPtr)
    (path2 : Option (Option CharPtr)) :
    ∀ (k i : Nat), (MountManager.identifyLoop m path1 path2 k i).fs =
      match (entriesFrom m k i).find? (fun e => decide (e.1.str <+: path1.str)) with
      | some e => e.2
      | none => m.sfRoot := by
  intro k
  induction k with
  | zero =>
    intro i
    simp only [MountManager.identifyLoop, entriesFrom, List.find?_nil]
    cases m.sfRoot <;> rfl
  | succ k ih =>
    intro i
    cases hq : m.sfPathsArray i with
    | none => simp only [MountManager.identifyLoop, entriesFrom, hq]; exact ih (i + 1)
    | some q =>
      by_cases hpre : q.str <+: path1.str
      · simp [MountManager.identifyLoop, entriesFrom, hq,
          (strncmp_eq_zero_iff q path1).2 hpre, List.find?_cons, hpre]
      · have hne : ¬ strncmp q path1 (strlen q) = 0 := fun h0 =>
          hpre ((strncmp_eq_zero_iff q path1).1 h0)
        simp only [MountManager.identifyLoop, entriesFrom, hq, hne, if_false,
          List.find?_cons, hpre, decide_False]
        exact ih (i + 1)

theorem identifyFileSystem_of_listed (m : MountManager) (log : List (CharPtr × FileSystem))
    (hl : Listed m log) (hroot : m.sfRoot = none) (path1 : CharPtr)
    (path2 : Option (Option CharPtr)) :
    (MountManager.identifyFileSystem m path1 path2).fs = earliestMounted log path1 := by
  unfold MountManager.identifyFileSystem earliestMounted
  rw [identifyLoop_fs_eq_find, hl, List.find?_map, hroot]
  cases hf : List.find? (fun e => decide (e.1.str <+: path1.str)) log with
  | none =>
    have : List.find? ((fun e : CharPtr × Option FileSystem => decide (e.1.str <+: path1.str))
        ∘ fun e : CharPtr × FileSystem => (e.1, some e.2)) log = none := hf
    rw [this]; rfl
  | some e =>
    have : List.find? ((fun e : CharPtr × Option FileSystem => decide (e.1.str <+: path1.str))
        ∘ fun e : CharPtr × FileSystem => (e.1, some e.2)) log = some e := hf
    rw [this]; rfl

/-- A compact table lists its entries in the order of the list. -/
theorem entriesFrom_of_compact (m : MountManager) (log : List (CharPtr × FileSystem))
    (hc : ∀ i, m.sfPathsArray i = (log[i]?).map (fun e => e.1) ∧
      m.sfFileSystemsArray i = (log[i]?).map (fun e => e.2)) :
    ∀ (k i : Nat), entriesFrom m k i =
      ((log.drop i).take k).map (fun e => (e.1, some e.2)) := by
  intro k
  induction k with
  | zero => intro i; simp [entriesFrom]
  | succ k ih =>
    intro i
    obtain ⟨hp, hf⟩ := hc i
    by_cases hi : i < log.length
    · rw [List.getElem?_eq_getElem hi] at hp hf
      simp only [Option.map_some'] at hp hf
      rw [List.drop_eq_getElem_cons hi]
      simp only [entriesFrom, hp, hf, List.take_succ_cons, List.map_cons]
      rw [ih (i + 1)]
    · rw [List.getElem?_eq_none (by omega)] at hp
      simp only [Option.map_none'] at hp
      simp only [entriesFrom, hp]
      rw [ih (i + 1), List.drop_eq_nil_of_le (by omega), List.drop_eq_nil_of_le (by omega)]
      simp

theorem listed_of_compact (m : MountManager) (log : List (CharPtr × FileSystem))
    (hc : Compact m log) : Listed m log := by
  unfold Listed
  rw [entriesFrom_of_compact m log hc.2 m.sfSize 0]
  simp only [List.drop_zero]
  rw [List.take_of_length_le hc.1]

theorem mount_compact (h : Hooks) (s : Sys) (fs : FileSystem) (path : CharPtr)
    (blockDevice : Option BlockDevice) (flags : Nat) (log : List (CharPtr × FileSystem))
    (hc : Compact s.mm log) (hsep : path.str.getLast? = some '/') :
    ∃ ret s', MountManager.mount h s fs path blockDevice flags = some (ret, s') ∧
      Compact s'.mm (record log (Op.mount fs path blockDevice flags) ret) ∧
      s'.mm.sfRoot = s.mm.sfRoot := by
  obtain ⟨hlen, harr⟩ := hc
  by_cases hdup : ∃ i, i < s.mm.sfSize ∧ PathAt s.mm path i
  · refine ⟨-1, _, mount_eq_of_busy h s fs path blockDevice flags hsep hdup, ?_, rfl⟩
    simp only [record]
    exact ⟨hlen, harr⟩
  · have hnew : ∀ j, j < s.mm.sfSize → ¬ PathAt s.mm path j :=
      fun j hj hp => hdup ⟨j, hj, hp⟩
    have hocc : ∀ j, j < log.length → s.mm.sfFileSystemsArray j ≠ none := by
      intro j hj
      rw [(harr j).2, List.getElem?_eq_getElem hj]
      simp
    by_cases hfull : log.length < s.mm.sfSize
    · have hfree : s.mm.sfFileSystemsArray log.length = none := by
        rw [(harr log.length).2, List.getElem?_eq_none (le_refl _)]
        rfl
      refine ⟨0, _, mount_eq_of_free h s fs path blockDevice flags log.length hsep hnew
        hfull hfree hocc, ?_, rfl⟩
      simp only [record, if_true]
      refine ⟨by simp; omega, ?_⟩
      intro i
      by_cases hi : i = log.length
      · subst hi
        simp [setAt]
      · have hget : (log ++ [(path, fs)])[i]? = log[i]? := by
          by_cases hlt : i < log.length
          · exact List.getElem?_append_left hlt
          · rw [List.getElem?_eq_none (by simp; omega), List.getElem?_eq_none (by omega)]
        simp only [setAt, hi, if_false, hget]
        exact harr i
    · have hall : ∀ j, j < s.mm.sfSize → s.mm.sfFileSystemsArray j ≠ none :=
        fun j hj => hocc j (by omega)
      refine ⟨-1, _, mount_eq_of_full h s fs path blockDevice flags hsep hnew hall, ?_, rfl⟩
      simp only [record]
      exact ⟨hlen, harr⟩

theorem entriesFrom_mem (m : MountManager) :
    ∀ (k i j : Nat) (p : CharPtr), i ≤ j → j < i + k → m.sfPathsArray j = some p →
      (p, m.sfFileSystemsArray j) ∈ entriesFrom m k i := by
  intro k
  induction k with
  | zero => intro i j p h1 h2; omega
  | succ k ih =>
    intro i j p h1 h2 hp
    by_cases hij : i = j
    · subst hij
      simp [entriesFrom, hp]
    · have hrec := ih (i + 1) j p (by omega) (by omega) hp
      cases hq : m.sfPathsArray i with
      | none => simp only [entriesFrom, hq]; exact hrec
      | some q => simp only [entriesFrom, hq]; exact List.mem_cons_of_mem _ hrec

theorem entriesFrom_congr (m m' : MountManager) (i0 : Nat)
    (hsame : ∀ j, j ≠ i0 → m'.sfPathsArray j = m.sfPathsArray j ∧
      m'.sfFileSystemsArray j = m.sfFileSystemsArray j) :
    ∀ (k i : Nat), (i0 < i ∨ i + k ≤ i0) → entriesFrom m' k i = entriesFrom m k i := by
  intro k
  induction k with
  | zero => intro i _; rfl
  | succ k ih =>
    intro i hout
    have hne : i ≠ i0 := by omega
    obtain ⟨hp, hf⟩ := hsame i hne
    have hrec := ih (i + 1) (by omega)
    simp only [entriesFrom, hp, hf, hrec]

theorem entriesFrom_erase (m m' : MountManager) (path : CharPtr) (i0 : Nat)
    (hsame : ∀ j, j ≠ i0 → m'.sfPathsArray j = m.sfPathsArray j ∧
      m'.sfFileSystemsArray j = m.sfFileSystemsArray j)
    (hclear : m'.sfPathsArray i0 = none) (hp : PathAt m path i0) :
    ∀ (k i : Nat), i ≤ i0 → i0 < i + k → (∀ j, i ≤ j → j < i0 → ¬ PathAt m path j) →
      entriesFrom m' k i =
        (entriesFrom m k i).eraseP (fun e => decide (e.1.str = path.str)) := by
  intro k
  induction k with
  | zero => intro i h1 h2; omega
  | succ k ih =>
    intro i h1 h2 hfirst
    by_cases hi : i = i0
    · subst hi
      obtain ⟨mp, hmp, heq⟩ := (pathAt_iff m path i).1 hp
      have hrest := entriesFrom_congr m m' i hsame k (i + 1) (Or.inl (by omega))
      simp only [entriesFrom, hclear, hmp, hrest]
      rw [List.eraseP_cons_of_pos (by simpa using heq)]
    · obtain ⟨hpi, hfi⟩ := hsame i hi
      have hrec := ih (i + 1) (by omega) (by omega) (fun j hj1 hj2 => hfirst j (by omega) hj2)
      cases hq : m.sfPathsArray i with
      | none =>
        simp only [entriesFrom, hpi, hq]
        exact hrec
      | some q =>
        have hnq : ¬ q.str = path.str := fun hq2 =>
          hfirst i (le_refl _) (by omega) ((pathAt_iff m path i).2 ⟨q, hq, hq2⟩)
        simp only [entriesFrom, hpi, hfi, hq]
        rw [List.eraseP_cons_of_neg (by simpa using hnq), hrec]

theorem umount_listed (h : Hooks) (s : Sys) (path : CharPtr) (flags : Nat)
    (log : List (CharPtr × FileSystem)) (hl : Listed s.mm log) :
    ∃ ret s', MountManager.umount h s path flags = some (ret, s') ∧
      Listed s'.mm (record log (Op.umount path flags) ret) ∧
      s'.mm.sfRoot = s.mm.sfRoot := by
  by_cases hex : ∃ i, i < s.mm.sfSize ∧ PathAt s.mm path i
  · obtain ⟨i, hi, hp, hfirst⟩ := exists_first_index (PathAt s.mm path) s.mm.sfSize hex
    obtain ⟨mp, hmp, _⟩ := (pathAt_iff s.mm path i).1 hp
    have hmem := entriesFrom_mem s.mm s.mm.sfSize 0 i mp (Nat.zero_le _) (by omega) hmp
    unfold Listed at hl
    rw [hl, List.mem_map] at hmem
    obtain ⟨e, _, he⟩ := hmem
    have hfs : s.mm.sfFileSystemsArray i = some e.2 := (congrArg Prod.snd he).symm
    refine ⟨0, _, umount_eq_of_found h s path flags i e.2 hi hp hfs hfirst, ?_, rfl⟩
    simp only [record, if_true]
    unfold Listed
    have herase := entriesFrom_erase s.mm
      { s.mm with
        sfFileSystemsArray := setAt s.mm.sfFileSystemsArray i none
        sfPathsArray := setAt s.mm.sfPathsArray i none } path i
      (by intro j hj; simp [setAt, hj]) (by simp [setAt]) hp s.mm.sfSize 0
      (Nat.zero_le _) (by omega) (fun j _ hj => hfirst j hj)
    rw [herase, hl, List.eraseP_map]
    rfl
  · have hno : ∀ j, j < s.mm.sfSize → ¬ PathAt s.mm path j := fun j hj hp => hex ⟨j, hj, hp⟩
    refine ⟨-1, _, umount_eq_of_not_found h s path flags hno, ?_, rfl⟩
    simp only [record]
    exact hl

theorem runLog_mounts (h : Hooks) (ms : List Op) :
    (∀ op, op ∈ ms → op.isMount = true) →
    (∀ op, op ∈ ms → op.path.str.getLast? = some '/') →
    ∀ (s : Sys) (log : List (CharPtr × FileSystem)), Compact s.mm log →
      ∃ s' log', runLog h ms s log = some (s', log') ∧ Compact s'.mm log' ∧
        s'.mm.sfRoot = s.mm.sfRoot := by
  induction ms with
  | nil => intro _ _ s log hc; exact ⟨s, log, rfl, hc, rfl⟩
  | cons op ops ih =>
    intro hm hsep s log hc
    have hm1 := hm op (List.mem_cons_self _ _)
    have hsep1 := hsep op (List.mem_cons_self _ _)
    cases op with
    | umount path flags => simp [Op.isMount] at hm1
    | mount fs path blockDevice flags =>
      obtain ⟨ret, s1, hstep, hc1, hroot1⟩ :=
        mount_compact h s fs path blockDevice flags log hc hsep1
      obtain ⟨s', log', hrun, hc', hroot'⟩ :=
        ih (fun o ho => hm o (List.mem_cons_of_mem _ ho))
          (fun o ho => hsep o (List.mem_cons_of_mem _ ho)) s1 _ hc1
      refine ⟨s', log', ?_, hc', hroot'.trans hroot1⟩
      simp only [runLog, step, hstep]
      exact hrun

theorem runLog_umounts (h : Hooks) (us : List Op) :
    (∀ op, op ∈ us → op.isMount = false) →
    ∀ (s : Sys) (log : List (CharPtr × FileSystem)), Listed s.mm log →
      ∃ s' log', runLog h us s log = some (s', log') ∧ Listed s'.mm log' ∧
        s'.mm.sfRoot = s.mm.sfRoot := by
  induction us with
  | nil => intro _ s log hl; exact ⟨s, log, rfl, hl, rfl⟩
  | cons op ops ih =>
    intro hu s log hl
    have hu1 := hu op (List.mem_cons_self _ _)
    cases op with
    | mount fs path blockDevice flags => simp [Op.isMount] at hu1
    | umount path flags =>
      obtain ⟨ret, s1, hstep, hl1, hroot1⟩ := umount_listed h s path flags log hl
      obtain ⟨s', log', hrun, hl', hroot'⟩ :=
        ih (fun o ho => hu o (List.mem_cons_of_mem _ ho)) s1 _ hl1
      refine ⟨s', log', ?_, hl', hroot'.trans hroot1⟩
      simp only [runLog, step, hstep]
      exact hrun

/-- C5, amended: for every sequence of mount calls (with paths ending in '/')
followed by umount calls, none of the mounts coming after an umount, performed on a
freshly constructed manager, every call returns and `identifyFileSystem` then scans
the currently mounted entries in insertion order: the filesystem returned for a path
is that of the earliest mounted entry, among those still mounted, whose path is a
prefix of it (and null when there is none, no root being set). -/
theorem identifyFileSystem_insertion_order_without_remount (h : Hooks) (size : Nat)
    (ms us : List Op) (hsize : 0 < size)
    (hms : ∀ op, op ∈ ms → op.isMount = true)
    (hsep : ∀ op, op ∈ ms → op.path.str.getLast? = some '/')
    (hus : ∀ op, op ∈ us → op.isMount = false) :
    ∃ s0 s log, boot size = some s0 ∧ runLog h (ms ++ us) s0 [] = some (s, log) ∧
      ∀ (path1 : CharPtr) (path2 : Option (Option CharPtr)),
        (MountManager.identifyFileSystem s.mm path1 path2).fs = earliestMounted log path1 := by
  have hboot : boot size = some ⟨⟨size, none, fun _ => none, fun _ => none⟩, 0,
      fun _ => none, []⟩ := by
    simp [boot, MountManager.create, hsize]
  have hc0 : Compact (⟨size, none, fun _ => none, fun _ => none⟩ : MountManager) [] :=
    ⟨Nat.zero_le _, fun i => by simp⟩
  obtain ⟨s1, log1, hrun1, hc1, hroot1⟩ := runLog_mounts h ms hms hsep
    ⟨⟨size, none, fun _ => none, fun _ => none⟩, 0, fun _ => none, []⟩ [] hc0
  obtain ⟨s2, log2, hrun2, hl2, hroot2⟩ :=
    runLog_umounts h us hus s1 log1 (listed_of_compact _ _ hc1)
  refine ⟨_, s2, log2, hboot, ?_, ?_⟩
  · rw [runLog_append, hrun1]
    exact hrun2
  · intro path1 path2
    exact identifyFileSystem_of_listed s2.mm log2 hl2 (hroot2.trans hroot1) path1 path2

/-- C5, amended, at three mounts ("/a/", "/a/b/", "/c/") on a table of four slots,
followed by the umount of "/a/". -/
theorem identifyFileSystem_insertion_order_without_remount_witness :
    ∃ s0 s log, boot 4 = some s0 ∧
      runLog hooksOk (opsMounts ++ opsUmounts) s0 [] = some (s, log) ∧
      (MountManager.identifyFileSystem s.mm (CharPtr.lit "/a/b/c") none).fs
        = earliestMounted log (CharPtr.lit "/a/b/c") := by
  obtain ⟨s0, s, log, h1, h2, h3⟩ :=
    identifyFileSystem_insertion_order_without_remount hooksOk 4 opsMounts opsUmounts
      (by decide) (by decide) (by decide) (by decide)
  exact ⟨s0, s, log, h1, h2, h3 (CharPtr.lit "/a/b/c") none⟩

/-! ## `setRoot` -/

/-- C11: for every filesystem `fs`, `setRoot (fs, blockDevice, flags)` makes `fs` the
root filesystem, attaches the block device to `fs` (and touches no other filesystem),
invokes the mount hook of `fs` with `flags` once, after attaching the device, and
leaves the mount table (paths, filesystems, size) unchanged; afterwards
`identifyFileSystem` on a path that matches no entry returns `fs` and leaves the
paths untouched. -/
theorem setRoot_sets_root (h : Hooks) (s : Sys) (fs : FileSystem)
    (blockDevice : Option BlockDevice) (flags : Nat) :
    (MountManager.setRoot h s fs blockDevice flags).2.mm.sfRoot = some fs ∧
    (MountManager.setRoot h s fs blockDevice flags).2.blockDevice fs = blockDevice ∧
    (∀ g, g ≠ fs →
      (MountManager.setRoot h s fs blockDevice flags).2.blockDevice g = s.blockDevice g) ∧
    (MountManager.setRoot h s fs blockDevice flags).2.calls =
      s.calls ++ [Call.setBlockDevice fs blockDevice, Call.do_mount fs flags] ∧
    (MountManager.setRoot h s fs blockDevice flags).2.mm.sfPathsArray = s.mm.sfPathsArray ∧
    (MountManager.setRoot h s fs blockDevice flags).2.mm.sfFileSystemsArray
      = s.mm.sfFileSystemsArray ∧
    (MountManager.setRoot h s fs blockDevice flags).2.mm.sfSize = s.mm.sfSize ∧
    ∀ (path1 : CharPtr) (path2 : Option (Option CharPtr)),
      (∀ i, i < s.mm.sfSize → ¬ MatchesAt s.mm path1 i) →
      MountManager.identifyFileSystem
        (MountManager.setRoot h s fs blockDevice flags).2.mm path1 path2
        = ⟨some fs, path1, path2⟩ := by
  refine ⟨rfl, ?_, ?_, ?_, rfl, rfl, rfl, ?_⟩
  · simp [MountManager.setRoot, FileSystem.do_mount, FileSystem.setBlockDevice, setAt]
  · intro g hg
    simp [MountManager.setRoot, FileSystem.do_mount, FileSystem.setBlockDevice, setAt, hg]
  · simp [MountManager.setRoot, FileSystem.do_mount, FileSystem.setBlockDevice]
  · intro path1 path2 hno
    exact identifyLoop_miss (MountManager.setRoot h s fs blockDevice flags).2.mm path1 path2
      s.mm.sfSize 0 (fun j _ hj hm => hno j (by omega) hm)

/-- C11 at a table holding "/a/" and "/a/b/": after `setRoot` of filesystem 7 the
path "/x/y" resolves to filesystem 7. -/
theorem setRoot_sets_root_witness :
    (MountManager.setRoot hooksOk sysNested 7 (some 17) 123).2.mm.sfRoot = some 7 ∧
    MountManager.identifyFileSystem
        (MountManager.setRoot hooksOk sysNested 7 (some 17) 123).2.mm
        (CharPtr.lit "/x/y") none
      = ⟨some 7, CharPtr.lit "/x/y", none⟩ :=
  ⟨(setRoot_sets_root hooksOk sysNested 7 (some 17) 123).1,
    (setRoot_sets_root hooksOk sysNested 7 (some 17) 123).2.2.2.2.2.2.2
      (CharPtr.lit "/x/y") none (by decide)⟩

/-- C12 fails as stated: with a mount hook that reports failure, `setRoot` returns
-1, not 0. -/
theorem setRoot_not_always_zero :
    (MountManager.setRoot hooksFail sysFs1 2 (some 12) 123).1 = -1 ∧
    (MountManager.setRoot hooksFail sysFs1 2 (some 12) 123).1 ≠ 0 := by
  decide

/-- C12, amended: for every filesystem, block device and flags value, `setRoot`
returns the result of the filesystem's mount hook; it returns the success value 0
exactly when that hook returns 0. -/
theorem setRoot_returns_hook_result (h : Hooks) (s : Sys) (fs : FileSystem)
    (blockDevice : Option BlockDevice) (flags : Nat) :
    (MountManager.setRoot h s fs blockDevice flags).1 = h.do_mount fs flags ∧
    ((MountManager.setRoot h s fs blockDevice flags).1 = 0 ↔ h.do_mount fs flags = 0) :=
  ⟨rfl, Iff.rfl⟩

/-! ## Reachable mount tables -/

theorem uniquePaths_of_cleared (m m' : MountManager) (hsize : m'.sfSize = m.sfSize)
    (hsub : ∀ j, m'.sfPathsArray j = m.sfPathsArray j ∨ m'.sfPathsArray j = none)
    (hu : UniquePaths m) : UniquePaths m' := by
  intro i j hi hj p q hp hq hpq
  rw [hsize] at hi hj
  rcases hsub i with h1 | h1
  · rcases hsub j with h2 | h2
    · rw [h1] at hp
      rw [h2] at hq
      exact hu i j hi hj p q hp hq hpq
    · rw [h2] at hq; cases hq
  · rw [h1] at hp; cases hp

theorem uniquePaths_of_stored (m : MountManager) (path : CharPtr) (fs : FileSystem)
    (i0 : Nat) (hnew : ∀ j, j < m.sfSize → ¬ PathAt m path j) (hu : UniquePaths m) :
    UniquePaths { m with
      sfFileSystemsArray := setAt m.sfFileSystemsArray i0 (some fs)
      sfPathsArray := setAt m.sfPathsArray i0 (some path) } := by
  intro i j hi hj p q hp hq hpq
  simp only [setAt] at hp hq
  have hi' : i < m.sfSize := hi
  have hj' : j < m.sfSize := hj
  by_cases h1 : i = i0
  · by_cases h2 : j = i0
    · rw [h1, h2]
    · simp only [h1, if_true, Option.some.injEq] at hp
      simp only [h2, if_false] at hq
      subst hp
      exact absurd ((pathAt_iff m path j).2 ⟨q, hq, hpq.symm⟩) (hnew j hj')
  · simp only [h1, if_false] at hp
    by_cases h2 : j = i0
    · simp only [h2, if_true, Option.some.injEq] at hq
      subst hq
      exact absurd ((pathAt_iff m path i).2 ⟨p, hp, hpq⟩) (hnew i hi')
    · simp only [h2, if_false] at hq
      exact hu i j hi' hj' p q hp hq hpq

theorem mount_uniquePaths (h : Hooks) (s : Sys) (fs : FileSystem) (path : CharPtr)
    (blockDevice : Option BlockDevice) (flags : Nat) (r : Int × Sys)
    (hr : MountManager.mount h s fs path blockDevice flags = some r)
    (hu : UniquePaths s.mm) : UniquePaths r.2.mm := by
  by_cases hsep : path.str.getLast? = some '/'
  · by_cases hdup : ∃ i, i < s.mm.sfSize ∧ PathAt s.mm path i
    · rw [mount_eq_of_busy h s fs path blockDevice flags hsep hdup] at hr
      cases hr
      exact hu
    · have hnew : ∀ j, j < s.mm.sfSize → ¬ PathAt s.mm path j :=
        fun j hj hp => hdup ⟨j, hj, hp⟩
      by_cases hfree : ∃ i, i < s.mm.sfSize ∧ s.mm.sfFileSystemsArray i = none
      · obtain ⟨i, hi, hf, hlow⟩ :=
          exists_first_index (fun i => s.mm.sfFileSystemsArray i = none) s.mm.sfSize hfree
        rw [mount_eq_of_free h s fs path blockDevice flags i hsep hnew hi hf hlow] at hr
        cases hr
        exact uniquePaths_of_stored s.mm path fs i hnew hu
      · have hfull : ∀ j, j < s.mm.sfSize → s.mm.sfFileSystemsArray j ≠ none :=
          fun j hj hn => hfree ⟨j, hj, hn⟩
        rw [mount_eq_of_full h s fs path blockDevice flags hsep hnew hfull] at hr
        cases hr
        exact hu
  · simp [MountManager.mount, hsep] at hr

theorem umountLoop_paths (h : Hooks) (s : Sys) (path : CharPtr) (flags : Nat) :
    ∀ (k i : Nat) (r : Int × Sys), MountManager.umountLoop h s path flags k i = some r →
      r.2.mm.sfSize = s.mm.sfSize ∧
      ∀ j, r.2.mm.sfPathsArray j = s.mm.sfPathsArray j ∨ r.2.mm.sfPathsArray j = none := by
  intro k
  induction k with
  | zero =>
    intro i r hr
    simp only [MountManager.umountLoop, Option.some.injEq] at hr
    subst hr
    exact ⟨rfl, fun j => Or.inl rfl⟩
  | succ k ih =>
    intro i r hr
    cases hq : s.mm.sfPathsArray i with
    | none =>
      simp only [MountManager.umountLoop, hq] at hr
      exact ih (i + 1) r hr
    | some q =>
      by_cases hc : strcmp path q = 0
      · cases hf : s.mm.sfFileSystemsArray i with
        | none => simp [MountManager.umountLoop, hq, hc, hf] at hr
        | some g =>
          simp only [MountManager.umountLoop, hq, hc, if_true, hf, Option.some.injEq] at hr
          subst hr
          refine ⟨rfl, fun j => ?_⟩
          by_cases hj : j = i
          · right; simp [setAt, hj, FileSystem.setBlockDevice, FileSystem.do_unmount,
              FileSystem.do_sync]
          · left; simp [setAt, hj, FileSystem.setBlockDevice, FileSystem.do_unmount,
              FileSystem.do_sync]
      · simp only [MountManager.umountLoop, hq, hc, if_false] at hr
        exact ih (i + 1) r hr

theorem step_uniquePaths (h : Hooks) (s : Sys) (op : Op) (r : Int × Sys)
    (hr : step h s op = some r) (hu : UniquePaths s.mm) : UniquePaths r.2.mm := by
  cases op with
  | mount fs path blockDevice flags =>
    exact mount_uniquePaths h s fs path blockDevice flags r hr hu
  | umount path flags =>
    obtain ⟨hsize, hsub⟩ := umountLoop_paths h { s with errno := 0 } path flags
      s.mm.sfSize 0 r hr
    exact uniquePaths_of_cleared s.mm r.2.mm hsize hsub hu

theorem runLog_uniquePaths (h : Hooks) (ops : List Op) :
    ∀ (s : Sys) (log : List (CharPtr × FileSystem)) (r : Sys × List (CharPtr × FileSystem)),
      runLog h ops s log = some r → UniquePaths s.mm → UniquePaths r.1.mm := by
  induction ops with
  | nil =>
    intro s log r hr hu
    simp only [runLog, Option.some.injEq] at hr
    subst hr
    exact hu
  | cons op ops ih =>
    intro s log r hr hu
    simp only [runLog] at hr
    cases hs : step h s op with
    | none => simp [hs] at hr
    | some x =>
      simp only [hs] at hr
      exact ih x.2 _ r hr (step_uniquePaths h s op x hs hu)

/-- C13: in every mount table reached from the freshly constructed (empty) table by
a sequence of mount and umount calls, no two occupied entries hold equal path
strings. -/
theorem reachable_uniquePaths (h : Hooks) (size : Nat) (ops : List Op) (s0 s : Sys)
    (log : List (CharPtr × FileSystem)) (hboot : boot size = some s0)
    (hrun : runLog h ops s0 [] = some (s, log)) : UniquePaths s.mm := by
  have hu0 : UniquePaths s0.mm := by
    unfold boot MountManager.create at hboot
    split at hboot
    · rename_i m hm
      split at hm
      · simp only [Option.some.injEq] at hm hboot
        subst hm
        subst hboot
        intro i j _ _ p q hp
        simp at hp
      · simp at hm
    · simp at hboot
  exact runLog_uniquePaths h ops s0 [] (s, log) hrun hu0

/-- C13 at the four calls that mount "/a/" and "/a/b/", unmount "/a/" and mount it
again, on a table of two slots. -/
theorem reachable_uniquePaths_witness :
    ∃ s0 s log, boot 2 = some s0 ∧ runLog hooksOk opsRemount s0 [] = some (s, log) ∧
      UniquePaths s.mm := by
  refine ⟨_, _, _, rfl, rfl, ?_⟩
  exact reachable_uniquePaths hooksOk 2 opsRemount _ _ _ rfl rfl

/-! ## The descriptor table -/

theorem allocLoop_free (s : IoSys) (io : IoObject) :
    ∀ (k i i0 : Nat), i ≤ i0 → i0 < i + k → s.fdm.sfDescriptorsArray i0 = none →
      (∀ j, i ≤ j → j < i0 → s.fdm.sfDescriptorsArray j ≠ none) →
      FileDescriptorsManager.allocLoop s io k i =
        ((i0 : Int),
          { s with
            fdm := { s.fdm with
                     sfDescriptorsArray := setAt s.fdm.sfDescriptorsArray i0 (some io) }
            fFileDescriptor := setAt s.fFileDescriptor io (i0 : Int) }) := by
  intro k
  induction k with
  | zero => intro i i0 h1 h2; omega
  | succ k ih =>
    intro i i0 h1 h2 hfree hlow
    by_cases hi : i = i0
    · subst hi
      simp only [FileDescriptorsManager.allocLoop, hfree]
      rfl
    · have hocc : s.fdm.sfDescriptorsArray i ≠ none := hlow i (le_refl _) (by omega)
      have hrec := ih (i + 1) i0 (by omega) (by omega) hfree
        (fun j hj1 hj2 => hlow j (by omega) hj2)
      cases hq : s.fdm.sfDescriptorsArray i with
      | none => exact absurd hq hocc
      | some g => simp only [FileDescriptorsManager.allocLoop, hq]; exact hrec

theorem allocLoop_full (s : IoSys) (io : IoObject) :
    ∀ (k i : Nat), (∀ j, i ≤ j → j < i + k → s.fdm.sfDescriptorsArray j ≠ none) →
      FileDescriptorsManager.allocLoop s io k i = (-1, { s with errno := ENFILE }) := by
  intro k
  induction k with
  | zero => intro i _; rfl
  | succ k ih =>
    intro i hfull
    have hocc : s.fdm.sfDescriptorsArray i ≠ none := hfull i (le_refl _) (by omega)
    have hrec := ih (i + 1) (fun j hj1 hj2 => hfull j (by omega) (by omega))
    cases hq : s.fdm.sfDescriptorsArray i with
    | none => exact absurd hq hocc
    | some g => simp only [FileDescriptorsManager.allocLoop, hq]; exact hrec

/-- The result of `alloc` on an object that already has a descriptor. -/
theorem alloc_eq_of_busy (s : IoSys) (io : IoObject)
    (hb : 0 ≤ IoObject.getFileDescriptor s io) :
    FileDescriptorsManager.alloc s io = (-1, { s with errno := EBUSY }) := by
  simp only [FileDescriptorsManager.alloc, hb, if_true]

/-- The result of `alloc` when `i0` is the lowest free index from 3 on. -/
theorem alloc_eq_of_free (s : IoSys) (io : IoObject) (i0 : Nat)
    (hu : IoObject.getFileDescriptor s io < 0) (h3 : 3 ≤ i0) (hi : i0 < s.fdm.sfSize)
    (hfree : s.fdm.sfDescriptorsArray i0 = none)
    (hlow : ∀ j, 3 ≤ j → j < i0 → s.fdm.sfDescriptorsArray j ≠ none) :
    FileDescriptorsManager.alloc s io =
      ((i0 : Int),
        { s with
          fdm := { s.fdm with
                   sfDescriptorsArray := setAt s.fdm.sfDescriptorsArray i0 (some io) }
          fFileDescriptor := setAt s.fFileDescriptor io (i0 : Int) }) := by
  have hnb : ¬ 0 ≤ IoObject.getFileDescriptor s io := by omega
  simp only [FileDescriptorsManager.alloc, hnb, if_false]
  exact allocLoop_free s io (s.fdm.sfSize - 3) 3 i0 h3 (by omega) hfree hlow

/-- The result of `alloc` when no index from 3 on is free. -/
theorem alloc_eq_of_full (s : IoSys) (io : IoObject)
    (hu : IoObject.getFileDescriptor s io < 0)
    (hfull : ∀ j, 3 ≤ j → j < s.fdm.sfSize → s.fdm.sfDescriptorsArray j ≠ none) :
    FileDescriptorsManager.alloc s io = (-1, { s with errno := ENFILE }) := by
  have hnb : ¬ 0 ≤ IoObject.getFileDescriptor s io := by omega
  simp only [FileDescriptorsManager.alloc, hnb, if_false]
  exact allocLoop_full s io (s.fdm.sfSize - 3) 3 (fun j hj1 hj2 => hfull j hj1 (by omega))

/-- C14: whenever `alloc (io)` succeeds (returns a non-negative value), the value is the
lowest free index that is at least 3; afterwards `getIo` of that index is `io`, the
descriptor stored on `io` is the index, and every other slot of the table and the
stored descriptor of every other object are unchanged. -/
theorem alloc_returns_lowest_free (s : IoSys) (io : IoObject)
    (hok : 0 ≤ (FileDescriptorsManager.alloc s io).1) :
    ∃ i : Nat, (FileDescriptorsManager.alloc s io).1 = (i : Int) ∧
      3 ≤ i ∧ i < s.fdm.sfSize ∧ s.fdm.sfDescriptorsArray i = none ∧
      (∀ j, 3 ≤ j → j < i → s.fdm.sfDescriptorsArray j ≠ none) ∧
      FileDescriptorsManager.getIo (FileDescriptorsManager.alloc s io).2 (i : Int) = some io ∧
      IoObject.getFileDescriptor (FileDescriptorsManager.alloc s io).2 io = (i : Int) ∧
      (∀ j, j ≠ i → (FileDescriptorsManager.alloc s io).2.fdm.sfDescriptorsArray j
        = s.fdm.sfDescriptorsArray j) ∧
      (∀ o, o ≠ io → IoObject.getFileDescriptor (FileDescriptorsManager.alloc s io).2 o
        = IoObject.getFileDescriptor s o) ∧
      (FileDescriptorsManager.alloc s io).2.fdm.sfSize = s.fdm.sfSize := by
  by_cases hb : 0 ≤ IoObject.getFileDescriptor s io
  · rw [alloc_eq_of_busy s io hb] at hok
    simp at hok
  · have hu : IoObject.getFileDescriptor s io < 0 := by omega
    by_cases hex : ∃ i, i < s.fdm.sfSize ∧ (3 ≤ i ∧ s.fdm.sfDescriptorsArray i = none)
    · obtain ⟨i, hi, ⟨h3, hfree⟩, hmin⟩ :=
        exists_first_index (fun i => 3 ≤ i ∧ s.fdm.sfDescriptorsArray i = none)
          s.fdm.sfSize hex
      have hlow : ∀ j, 3 ≤ j → j < i → s.fdm.sfDescriptorsArray j ≠ none :=
        fun j hj3 hji hn => hmin j hji ⟨hj3, hn⟩
      rw [alloc_eq_of_free s io i hu h3 hi hfree hlow]
      refine ⟨i, rfl, h3, hi, hfree, hlow, ?_, ?_, ?_, ?_, rfl⟩
      · have hv : (0 : Int) ≤ (i : Int) ∧ (i : Int) < (s.fdm.sfSize : Int) := by omega
        simp [FileDescriptorsManager.getIo, FileDescriptorsManager.isValid, hv, setAt]
      · simp [IoObject.getFileDescriptor, setAt]
      · intro j hj
        simp [setAt, hj]
      · intro o ho
        simp [IoObject.getFileDescriptor, setAt, ho]
    · have hfull : ∀ j, 3 ≤ j → j < s.fdm.sfSize → s.fdm.sfDescriptorsArray j ≠ none :=
        fun j hj3 hj hn => hex ⟨j, hj, hj3, hn⟩
      rw [alloc_eq_of_full s io hu hfull] at hok
      simp at hok

/-- C14 at the descriptors-manager test: after index 3 was released by `free`, the
next `alloc` hands out 3 again. -/
theorem alloc_returns_lowest_free_witness :
    (FileDescriptorsManager.alloc ioAfterFree 1).1 = 3 ∧
    ∃ i : Nat, (FileDescriptorsManager.alloc ioAfterFree 1).1 = (i : Int) ∧ 3 ≤ i ∧
      FileDescriptorsManager.getIo (FileDescriptorsManager.alloc ioAfterFree 1).2 (i : Int)
        = some 1 ∧
      IoObject.getFileDescriptor (FileDescriptorsManager.alloc ioAfterFree 1).2 1 = (i : Int) := by
  obtain ⟨i, h1, h2, _, _, _, h3, h4, _⟩ :=
    alloc_returns_lowest_free ioAfterFree 1 (by decide)
  exact ⟨by decide, i, h1, h2, h3, h4⟩

/-- C15 fails as stated: on a fresh table of capacity 5, as in the descriptors-manager
test, three successive `alloc` calls with distinct unbound objects return 3, 4 and
then -1 (with ENFILE): the values returned are not a strictly increasing sequence of
indices. -/
theorem allocAll_not_increasing :
    (allocAll (bootIo 5 (fun _ => IoType.NOTSET)) [1, 2, 3]).1 = [3, 4, -1] ∧
    (allocAll (bootIo 5 (fun _ => IoType.NOTSET)) [1, 2, 3]).2.errno = ENFILE ∧
    (allocAll (bootIo 3 (fun _ => IoType.NOTSET)) [1]).1 = [-1] := by
  decide

theorem filledTo_boot (N : Nat) (fType : IoObject → IoType) : FilledTo (bootIo N fType) 0 N := by
  refine ⟨rfl, fun i h3 _ => ?_⟩
  simp only [bootIo, FileDescriptorsManager.create]
  constructor
  · intro h; exact absurd rfl h
  · intro h; omega

theorem alloc_filledTo (s : IoSys) (io : IoObject) (n N : Nat) (hf : FilledTo s n N)
    (hu : IoObject.getFileDescriptor s io < 0) :
    (FileDescriptorsManager.alloc s io).1 = (if 3 + n < N then ((3 + n : Nat) : Int) else -1) ∧
    FilledTo (FileDescriptorsManager.alloc s io).2 (n + 1) N ∧
    ∀ o, o ≠ io → IoObject.getFileDescriptor (FileDescriptorsManager.alloc s io).2 o
      = IoObject.getFileDescriptor s o := by
  obtain ⟨hsize, harr⟩ := hf
  by_cases hlt : 3 + n < N
  · have hfree : s.fdm.sfDescriptorsArray (3 + n) = none := by
      by_contra hne
      have := (harr (3 + n) (by omega) hlt).1 hne
      omega
    have hlow : ∀ j, 3 ≤ j → j < 3 + n → s.fdm.sfDescriptorsArray j ≠ none :=
      fun j hj3 hj => (harr j hj3 (by omega)).2 hj
    rw [alloc_eq_of_free s io (3 + n) hu (by omega) (by omega) hfree hlow]
    refine ⟨by simp [hlt], ⟨hsize, fun i hi3 hiN => ?_⟩, fun o ho => ?_⟩
    · by_cases hi : i = 3 + n
      · subst hi
        simp [setAt]
      · simp only [setAt, hi, if_false]
        rw [harr i hi3 hiN]
        omega
    · simp [IoObject.getFileDescriptor, setAt, ho]
  · have hfull : ∀ j, 3 ≤ j → j < s.fdm.sfSize → s.fdm.sfDescriptorsArray j ≠ none :=
      fun j hj3 hj => (harr j hj3 (by omega)).2 (by omega)
    rw [alloc_eq_of_full s io hu hfull]
    refine ⟨by simp [hlt], ⟨hsize, fun i hi3 hiN => ?_⟩, fun o _ => rfl⟩
    rw [harr i hi3 hiN]
    omega

theorem allocAll_filledTo (N : Nat) :
    ∀ (objs : List IoObject) (s : IoSys) (n : Nat), FilledTo s n N → objs.Nodup →
      (∀ o, o ∈ objs → IoObject.getFileDescriptor s o < 0) →
      (allocAll s objs).1 =
        (List.range objs.length).map
          (fun j => if 3 + n + j < N then ((3 + n + j : Nat) : Int) else -1) := by
  intro objs
  induction objs with
  | nil => intro s n _ _ _; rfl
  | cons io ios ih =>
    intro s n hf hnd hun
    obtain ⟨hret, hf', hothers⟩ := alloc_filledTo s io n N hf (hun io (List.mem_cons_self _ _))
    have hnd' : ios.Nodup := (List.nodup_cons.1 hnd).2
    have hnotin : io ∉ ios := (List.nodup_cons.1 hnd).1
    have hun' : ∀ o, o ∈ ios →
        IoObject.getFileDescriptor (FileDescriptorsManager.alloc s io).2 o < 0 := by
      intro o ho
      have hne : o ≠ io := fun h => hnotin (h ▸ ho)
      rw [hothers o hne]
      exact hun o (List.mem_cons_of_mem _ ho)
    have hrec := ih (FileDescriptorsManager.alloc s io).2 (n + 1) hf' hnd' hun'
    simp only [allocAll, hrec, hret, List.length_cons, List.range_succ_eq_map, List.map_cons,
      List.map_map, Nat.add_zero]
    congr 1
    apply List.map_congr_left
    intro j _
    simp only [Function.comp]
    have : 3 + (n + 1) + j = 3 + n + (j + 1) := by omega
    rw [this]

/-- C15, amended: for every capacity N, a freshly initialised descriptor table has
`getSize () = N` and no bound slot (`getIo` is null everywhere), and successive
`alloc` calls on it with distinct unbound objects return 3, 4, 5, ... in this order
for as long as the index is below N: the call number j (from 0) returns 3 + j if
3 + j < N, and fails with -1 otherwise (always, when N is at most 3). -/
theorem allocAll_fresh (N : Nat) (fType : IoObject → IoType) (objs : List IoObject)
    (hnd : objs.Nodup) :
    FileDescriptorsManager.getSize (bootIo N fType) = N ∧
    (∀ d, FileDescriptorsManager.getIo (bootIo N fType) d = none) ∧
    (∀ o, IoObject.getFileDescriptor (bootIo N fType) o = noFileDescriptor) ∧
    (allocAll (bootIo N fType) objs).1 =
      (List.range objs.length).map
        (fun j => if 3 + j < N then ((3 + j : Nat) : Int) else -1) := by
  refine ⟨rfl, ?_, fun _ => rfl, ?_⟩
  · intro d
    simp only [FileDescriptorsManager.getIo, bootIo, FileDescriptorsManager.create]
    split <;> rfl
  · have h := allocAll_filledTo N objs (bootIo N fType) 0 (filledTo_boot N fType) hnd
      (fun o _ => by simp [IoObject.getFileDescriptor, bootIo, noFileDescriptor])
    simpa using h

/-- C15, amended, at a table of capacity 6 and three distinct objects: the calls
return 3, 4 and 5. -/
theorem allocAll_fresh_witness :
    (allocAll (bootIo 6 (fun _ => IoType.NOTSET)) [1, 2, 3]).1 = [3, 4, 5] := by
  have h := (allocAll_fresh 6 (fun _ => IoType.NOTSET) [1, 2, 3] (by decide)).2.2.2
  rw [h]
  decide

/-- C16: `alloc (io)` fails with -1 and EBUSY when `io` already has a valid (that is,
non-negative) descriptor, and with -1 and ENFILE when `io` has none but no index in
[3, N) is free; in both cases every table slot and every stored descriptor, that of
`io` included, are left unchanged. -/
theorem alloc_fails (s : IoSys) (io : IoObject) :
    (0 ≤ IoObject.getFileDescriptor s io →
      ∃ s', FileDescriptorsManager.alloc s io = (-1, s') ∧ s'.errno = EBUSY ∧
        s'.fdm = s.fdm ∧ s'.fFileDescriptor = s.fFileDescriptor) ∧
    (IoObject.getFileDescriptor s io < 0 →
      (∀ j, 3 ≤ j → j < s.fdm.sfSize → s.fdm.sfDescriptorsArray j ≠ none) →
      ∃ s', FileDescriptorsManager.alloc s io = (-1, s') ∧ s'.errno = ENFILE ∧
        s'.fdm = s.fdm ∧ s'.fFileDescriptor = s.fFileDescriptor) :=
  ⟨fun hb => ⟨_, alloc_eq_of_busy s io hb, rfl, rfl, rfl⟩,
    fun hu hfull => ⟨_, alloc_eq_of_full s io hu hfull, rfl, rfl, rfl⟩⟩

/-- C16 at the descriptors-manager test, indices 3 and 4 being bound in a table of
capacity 5: `alloc` of the object bound to 3 fails with EBUSY, `alloc` of a third
object fails with ENFILE. -/
theorem alloc_fails_witness :
    (∃ s', FileDescriptorsManager.alloc ioFull 1 = (-1, s') ∧ s'.errno = 16 ∧
      s'.fdm = ioFull.fdm ∧ s'.fFileDescriptor = ioFull.fFileDescriptor) ∧
    (∃ s', FileDescriptorsManager.alloc ioFull 3 = (-1, s') ∧ s'.errno = 23 ∧
      s'.fdm = ioFull.fdm ∧ s'.fFileDescriptor = ioFull.fFileDescriptor) :=
  ⟨(alloc_fails ioFull 1).1 (by decide), (alloc_fails ioFull 3).2 (by decide) (by decide)⟩

/-- The result of `free` on an index that is out of range or free. -/
theorem free_eq_of_bad (s : IoSys) (d : Int)
    (hbad : FileDescriptorsManager.getIo s d = none) :
    FileDescriptorsManager.free s d = (-1, { s with errno := EBADF }) := by
  by_cases hr : d < 0 ∨ (s.fdm.sfSize : Int) ≤ d
  · simp only [FileDescriptorsManager.free, hr, if_true]
  · have hv : 0 ≤ d ∧ d < (s.fdm.sfSize : Int) := by omega
    simp [FileDescriptorsManager.getIo, FileDescriptorsManager.isValid, hv] at hbad
    simp only [FileDescriptorsManager.free, hr, if_false, hbad]

/-- The result of `free` on an index bound to `io`. -/
theorem free_eq_of_bound (s : IoSys) (d : Int) (io : IoObject)
    (hb : FileDescriptorsManager.getIo s d = some io) :
    FileDescriptorsManager.free s d =
      (0, { s with
            fdm := { s.fdm with
                     sfDescriptorsArray := setAt s.fdm.sfDescriptorsArray d.toNat none }
            fFileDescriptor := setAt s.fFileDescriptor io noFileDescriptor }) := by
  by_cases hr : d < 0 ∨ (s.fdm.sfSize : Int) ≤ d
  · have hv : ¬ (0 ≤ d ∧ d < (s.fdm.sfSize : Int)) := by omega
    simp [FileDescriptorsManager.getIo, FileDescriptorsManager.isValid, hv] at hb
  · have hv : 0 ≤ d ∧ d < (s.fdm.sfSize : Int) := by omega
    simp [FileDescriptorsManager.getIo, FileDescriptorsManager.isValid, hv] at hb
    simp only [FileDescriptorsManager.free, hr, if_false, hb]
    rfl

/-- C17: `free (d)` fails (returns -1) exactly when `d` is outside [0, N) or slot `d` is
already free; it then sets EBADF and leaves the table and the stored descriptors
unchanged. Otherwise, `io` being the object bound to `d`, it returns 0, after which
`getIo (d)` is null, the descriptor stored on `io` is the unset sentinel, and every
other slot and every other stored descriptor are unchanged. -/
theorem free_spec (s : IoSys) (d : Int) :
    ((FileDescriptorsManager.free s d).1 = -1 ↔
      (d < 0 ∨ (s.fdm.sfSize : Int) ≤ d ∨ s.fdm.sfDescriptorsArray d.toNat = none)) ∧
    ((d < 0 ∨ (s.fdm.sfSize : Int) ≤ d ∨ s.fdm.sfDescriptorsArray d.toNat = none) →
      ∃ s', FileDescriptorsManager.free s d = (-1, s') ∧ s'.errno = EBADF ∧
        s'.fdm = s.fdm ∧ s'.fFileDescriptor = s.fFileDescriptor) ∧
    (∀ io, 0 ≤ d → d < (s.fdm.sfSize : Int) → s.fdm.sfDescriptorsArray d.toNat = some io →
      ∃ s', FileDescriptorsManager.free s d = (0, s') ∧
        FileDescriptorsManager.getIo s' d = none ∧
        IoObject.getFileDescriptor s' io = noFileDescriptor ∧
        (∀ j, j ≠ d.toNat → s'.fdm.sfDescriptorsArray j = s.fdm.sfDescriptorsArray j) ∧
        (∀ o, o ≠ io → IoObject.getFileDescriptor s' o = IoObject.getFileDescriptor s o) ∧
        s'.fdm.sfSize = s.fdm.sfSize) := by
  have hbadIff : FileDescriptorsManager.getIo s d = none ↔
      (d < 0 ∨ (s.fdm.sfSize : Int) ≤ d ∨ s.fdm.sfDescriptorsArray d.toNat = none) := by
    by_cases hv : 0 ≤ d ∧ d < (s.fdm.sfSize : Int)
    · simp only [FileDescriptorsManager.getIo, FileDescriptorsManager.isValid, hv,
        decide_True, if_true]
      constructor
      · intro h; exact Or.inr (Or.inr h)
      · intro h
        rcases h with h | h | h
        · omega
        · omega
        · exact h
    · simp only [FileDescriptorsManager.getIo, FileDescriptorsManager.isValid, hv,
        decide_False, Bool.false_eq_true, if_false, true_iff]
      by_cases h0 : d < 0
      · exact Or.inl h0
      · exact Or.inr (Or.inl (by omega))
  have hbound : ∀ io, 0 ≤ d → d < (s.fdm.sfSize : Int) →
      s.fdm.sfDescriptorsArray d.toNat = some io →
      FileDescriptorsManager.getIo s d = some io := by
    intro io h0 h1 h2
    have hv : 0 ≤ d ∧ d < (s.fdm.sfSize : Int) := ⟨h0, h1⟩
    simp [FileDescriptorsManager.getIo, FileDescriptorsManager.isValid, hv, h2]
  refine ⟨?_, ?_, ?_⟩
  · constructor
    · intro hret
      rw [← hbadIff]
      cases hg : FileDescriptorsManager.getIo s d with
      | none => rfl
      | some io =>
        rw [free_eq_of_bound s d io hg] at hret
        simp at hret
    · intro hbad
      rw [free_eq_of_bad s d (hbadIff.2 hbad)]
  · intro hbad
    exact ⟨_, free_eq_of_bad s d (hbadIff.2 hbad), rfl, rfl, rfl⟩
  · intro io h0 h1 h2
    refine ⟨_, free_eq_of_bound s d io (hbound io h0 h1 h2), ?_, ?_, ?_, ?_, rfl⟩
    · have hv : 0 ≤ d ∧ d < (s.fdm.sfSize : Int) := ⟨h0, h1⟩
      simp [FileDescriptorsManager.getIo, FileDescriptorsManager.isValid, hv, setAt]
    · simp [IoObject.getFileDescriptor, setAt]
    · intro j hj
      simp [setAt, hj]
    · intro o ho
      simp [IoObject.getFileDescriptor, setAt, ho]

/-- C17 at the descriptors-manager test, indices 3 and 4 being bound in a table of
capacity 5: `free (-1)` and `free (5)` fail with EBADF, `free (4)` returns 0 and unbinds
object 2. -/
theorem free_spec_witness :
    (FileDescriptorsManager.free ioFull (-1)).1 = -1 ∧
    (∃ s', FileDescriptorsManager.free ioFull 5 = (-1, s') ∧ s'.errno = 9 ∧
      s'.fdm = ioFull.fdm ∧ s'.fFileDescriptor = ioFull.fFileDescriptor) ∧
    (∃ s', FileDescriptorsManager.free ioFull 4 = (0, s') ∧
      FileDescriptorsManager.getIo s' 4 = none ∧
      IoObject.getFileDescriptor s' 2 = noFileDescriptor) := by
  refine ⟨(free_spec ioFull (-1)).1.2 (by decide),
    (free_spec ioFull 5).2.1 (by decide), ?_⟩
  obtain ⟨s', h1, h2, h3, _⟩ := (free_spec ioFull 4).2.2 2 (by decide) (by decide) (by decide)
  exact ⟨s', h1, h2, h3⟩

/-! ## The object pool -/

theorem aquireLoop_free (p : Pool) :
    ∀ (k i i0 : Nat), i ≤ i0 → i0 < i + k → p.fInUse i0 = false →
      (∀ j, i ≤ j → j < i0 → p.fInUse j = true) →
      Pool.aquireLoop p k i =
        (some (p.fArray i0), { p with fInUse := setAt p.fInUse i0 true }) := by
  intro k
  induction k with
  | zero => intro i i0 h1 h2; omega
  | succ k ih =>
    intro i i0 h1 h2 hfree hlow
    by_cases hi : i = i0
    · subst hi
      simp [Pool.aquireLoop, hfree]
    · have hocc : p.fInUse i = true := hlow i (le_refl _) (by omega)
      simp only [Pool.aquireLoop, hocc, if_true]
      exact ih (i + 1) i0 (by omega) (by omega) hfree (fun j hj1 hj2 => hlow j (by omega) hj2)

theorem aquireLoop_full (p : Pool) :
    ∀ (k i : Nat), (∀ j, i ≤ j → j < i + k → p.fInUse j = true) →
      Pool.aquireLoop p k i = (none, p) := by
  intro k
  induction k with
  | zero => intro i _; rfl
  | succ k ih =>
    intro i hfull
    have hocc : p.fInUse i = true := hfull i (le_refl _) (by omega)
    simp only [Pool.aquireLoop, hocc, if_true]
    exact ih (i + 1) (fun j hj1 hj2 => hfull j (by omega) (by omega))

theorem releaseLoop_found (p : Pool) (obj : IoObject) :
    ∀ (k i i0 : Nat), i ≤ i0 → i0 < i + k → p.fArray i0 = obj →
      (∀ j, i ≤ j → j < i0 → p.fArray j ≠ obj) →
      Pool.releaseLoop p obj k i = (true, { p with fInUse := setAt p.fInUse i0 false }) := by
  intro k
  induction k with
  | zero => intro i i0 h1 h2; omega
  | succ k ih =>
    intro i i0 h1 h2 hobj hlow
    by_cases hi : i = i0
    · subst hi
      simp [Pool.releaseLoop, hobj]
    · have hne : p.fArray i ≠ obj := hlow i (le_refl _) (by omega)
      simp only [Pool.releaseLoop, hne, if_false]
      exact ih (i + 1) i0 (by omega) (by omega) hobj (fun j hj1 hj2 => hlow j (by omega) hj2)

/-- The result of `aquire` when `i` is the first free slot. -/
theorem aquire_eq_of_free (p : Pool) (i : Nat) (hi : i < p.fSize)
    (hfree : p.fInUse i = false) (hlow : ∀ j, j < i → p.fInUse j = true) :
    Pool.aquire p = (some (p.fArray i), { p with fInUse := setAt p.fInUse i true }) :=
  aquireLoop_free p p.fSize 0 i (Nat.zero_le _) (by omega) hfree (fun j _ hj => hlow j hj)

/-- The result of `aquire` when every slot is in use. -/
theorem aquire_eq_of_full (p : Pool) (hfull : ∀ j, j < p.fSize → p.fInUse j = true) :
    Pool.aquire p = (none, p) :=
  aquireLoop_full p p.fSize 0 (fun j _ hj => hfull j (by omega))

/-- The result of `release` on the object of slot `k` of a pool of distinct objects. -/
theorem release_eq_of_member (p : Pool) (hd : p.Distinct) (k : Nat) (hk : k < p.fSize) :
    Pool.release p (p.fArray k) = (true, { p with fInUse := setAt p.fInUse k false }) :=
  releaseLoop_found p (p.fArray k) p.fSize 0 k (Nat.zero_le _) (by omega) rfl
    (fun j _ hj hobj => absurd (hd j k (by omega) hk hobj) (by omega))

theorem distinct_create (size : Nat) (base : IoObject) : (Pool.create size base).Distinct := by
  intro i j _ _ h
  exact Nat.add_left_cancel h

/-- C18: for every pool of capacity C (its objects pairwise distinct), `aquire` returns
null exactly when all C slots are in use, and then changes nothing; otherwise, `i` being
the first free slot in index order, it returns the object of slot `i`, marks slot `i`
in-use and changes no other flag, no object pointer and not the capacity, and the
object returned is not one that is currently held. -/
theorem aquire_spec (p : Pool) (hd : p.Distinct) :
    ((Pool.aquire p).1 = none ↔ ∀ j, j < p.fSize → p.fInUse j = true) ∧
    ((∀ j, j < p.fSize → p.fInUse j = true) → Pool.aquire p = (none, p)) ∧
    (∀ i, i < p.fSize → p.fInUse i = false → (∀ j, j < i → p.fInUse j = true) →
      ∃ p', Pool.aquire p = (some (p.fArray i), p') ∧ p'.fInUse i = true ∧
        (∀ j, j ≠ i → p'.fInUse j = p.fInUse j) ∧ p'.fArray = p.fArray ∧
        p'.fSize = p.fSize ∧ ¬ Pool.Held p (p.fArray i)) := by
  have hsucc : ∀ i, i < p.fSize → p.fInUse i = false → (∀ j, j < i → p.fInUse j = true) →
      ∃ p', Pool.aquire p = (some (p.fArray i), p') ∧ p'.fInUse i = true ∧
        (∀ j, j ≠ i → p'.fInUse j = p.fInUse j) ∧ p'.fArray = p.fArray ∧
        p'.fSize = p.fSize ∧ ¬ Pool.Held p (p.fArray i) := by
    intro i hi hfree hlow
    refine ⟨_, aquire_eq_of_free p i hi hfree hlow, ?_, ?_, rfl, rfl, ?_⟩
    · simp [setAt]
    · intro j hj
      simp [setAt, hj]
    · rintro ⟨j, hj, hobj, hused⟩
      have hji : j = i := hd j i hj hi hobj
      subst hji
      rw [hfree] at hused
      cases hused
  refine ⟨?_, fun hfull => aquire_eq_of_full p hfull, hsucc⟩
  constructor
  · intro hnone
    by_contra hnot
    have hex : ∃ i, i < p.fSize ∧ p.fInUse i = false := by
      by_contra hno
      apply hnot
      intro j hj
      cases hf : p.fInUse j with
      | true => rfl
      | false => exact absurd ⟨j, hj, hf⟩ hno
    obtain ⟨i, hi, hfree, hmin⟩ :=
      exists_first_index (fun i => p.fInUse i = false) p.fSize hex
    have hlow : ∀ j, j < i → p.fInUse j = true := by
      intro j hj
      cases hf : p.fInUse j with
      | true => rfl
      | false => exact absurd hf (hmin j hj)
    obtain ⟨p', heq, _⟩ := hsucc i hi hfree hlow
    rw [heq] at hnone
    cases hnone
  · intro hfull
    rw [aquire_eq_of_full p hfull]

/-- C18 at a pool of two slots whose first slot is in use: `aquire` returns the object
of the second slot, which is not held. -/
theorem aquire_spec_witness :
    ∃ p', Pool.aquire poolOne = (some 101, p') ∧ p'.fInUse 1 = true ∧
      p'.fInUse 0 = poolOne.fInUse 0 ∧ ¬ Pool.Held poolOne 101 := by
  have hd : poolOne.Distinct := distinct_create 2 100
  obtain ⟨p', h1, h2, h3, _, _, h4⟩ :=
    (aquire_spec poolOne hd).2.2 1 (by decide) (by decide) (by decide)
  exact ⟨p', h1, h2, h3 0 (by decide), h4⟩

/-- C19 fails as stated: in a pool of two slots where slot 0 is free and slot 1 holds
object 101, `release (101)` followed by `aquire ()` returns object 100, the object of
the first free slot, not the slot of 101. -/
theorem release_aquire_other_slot :
    Pool.Held poolGap 101 ∧
    (Pool.release poolGap 101).1 = true ∧
    (Pool.aquire (Pool.release poolGap 101).2).1 = some 100 ∧
    (Pool.aquire (Pool.release poolGap 101).2).1 ≠ some 101 :=
  ⟨⟨1, by decide, by decide, by decide⟩, by decide, by decide, by decide⟩

/-- C19, amended: for every pool (its objects pairwise distinct) and every object held
in a slot `k` below which every slot is in use, `release (obj)` succeeds and, immediately
followed by `aquire ()`, returns the same storage slot: the same object, slot `k` in use
again and every flag as before the two calls. -/
theorem release_aquire_same_slot (p : Pool) (hd : p.Distinct) (k : Nat) (hk : k < p.fSize)
    (hheld : p.fInUse k = true) (hlow : ∀ j, j < k → p.fInUse j = true) :
    (Pool.release p (p.fArray k)).1 = true ∧
    (Pool.release p (p.fArray k)).2.fInUse k = false ∧
    (Pool.aquire (Pool.release p (p.fArray k)).2).1 = some (p.fArray k) ∧
    (∀ j, (Pool.aquire (Pool.release p (p.fArray k)).2).2.fInUse j = p.fInUse j) ∧
    (Pool.aquire (Pool.release p (p.fArray k)).2).2.fArray = p.fArray := by
  rw [release_eq_of_member p hd k hk]
  have hacq := aquire_eq_of_free { p with fInUse := setAt p.fInUse k false } k hk
    (by simp [setAt])
    (by intro j hj; have hne : j ≠ k := by omega
        simp only [setAt, hne, if_false]; exact hlow j hj)
  rw [hacq]
  refine ⟨rfl, by simp [setAt], rfl, ?_, rfl⟩
  intro j
  by_cases hj : j = k
  · subst hj; simp [setAt, hheld]
  · simp [setAt, hj]

/-- C19, amended, at a pool of two slots whose first slot holds object 100. -/
theorem release_aquire_same_slot_witness :
    (Pool.release poolOne 100).1 = true ∧
    (Pool.aquire (Pool.release poolOne 100).2).1 = some 100 := by
  obtain ⟨h1, _, h2, _⟩ :=
    release_aquire_same_slot poolOne (distinct_create 2 100) 0 (by decide) (by decide)
      (by intro j hj; omega)
  exact ⟨h1, h2⟩

/-! ## `IO::close` -/

/-- C30: for every primary path matched by a mount path `mp` (the first matching entry,
`i`), the filesystem `identifyFileSystem` returns is the one stored at `i` whatever the
secondary path is, and a supplied non-null secondary path is advanced by exactly
`|mp| - 1` characters, in its own buffer, whether or not it begins with `mp`. -/
theorem identifyFileSystem_secondary_path (m : MountManager) (path1 : CharPtr) (i : Nat)
    (mp : CharPtr) (hi : i < m.sfSize) (hp : m.sfPathsArray i = some mp)
    (hpre : mp.str <+: path1.str) (hfirst : ∀ j, j < i → ¬ MatchesAt m path1 j) :
    (∀ path2, (MountManager.identifyFileSystem m path1 path2).fs = m.sfFileSystemsArray i) ∧
    (∀ path2 path2', (MountManager.identifyFileSystem m path1 path2).fs
      = (MountManager.identifyFileSystem m path1 path2').fs) ∧
    (∀ p2 : CharPtr, (MountManager.identifyFileSystem m path1 (some (some p2))).path2
      = some (some ⟨p2.buf, p2.off + (strlen mp : Int) - 1⟩)) ∧
    (MountManager.identifyFileSystem m path1 none).path2 = none ∧
    (MountManager.identifyFileSystem m path1 (some none)).path2 = some none := by
  refine ⟨fun path2 => ?_, fun path2 path2' => ?_, fun p2 => ?_, ?_, ?_⟩
  · rw [identifyFileSystem_first m path1 path2 i mp hi hp hpre hfirst]
  · rw [identifyFileSystem_first m path1 path2 i mp hi hp hpre hfirst,
      identifyFileSystem_first m path1 path2' i mp hi hp hpre hfirst]
  · rw [identifyFileSystem_first m path1 (some (some p2)) i mp hi hp hpre hfirst]
    rfl
  · rw [identifyFileSystem_first m path1 none i mp hi hp hpre hfirst]
    rfl
  · rw [identifyFileSystem_first m path1 (some none) i mp hi hp hpre hfirst]
    rfl

/-- C30 at the table holding "/fs1/": with the primary path "/fs1/babu" the secondary
path "/zz", which does not begin with "/fs1/", is advanced by 4 characters all the same,
past its end. -/
theorem identifyFileSystem_secondary_path_witness :
    (MountManager.identifyFileSystem tableFs1 (CharPtr.lit "/fs1/babu")
        (some (some (CharPtr.lit "/zz")))).fs = some 1 ∧
    (MountManager.identifyFileSystem tableFs1 (CharPtr.lit "/fs1/babu")
        (some (some (CharPtr.lit "/zz")))).path2 = some (some ⟨"/zz".toList, 4⟩) := by
  obtain ⟨h1, _, h2, _⟩ := identifyFileSystem_secondary_path tableFs1 (CharPtr.lit "/fs1/babu")
    0 (CharPtr.lit "/fs1/") (by decide) (by decide) (by decide) (by intro j hj; omega)
  exact ⟨h1 _, h2 (CharPtr.lit "/zz")⟩

/-! ## The hooks' results in `mount` and `umount` -/

/-- C28: `mount` and `umount` ignore the results of their hooks. Whenever the path (ending
in '/') is new and `i` is the lowest free slot, `mount` returns 0 and records the entry
in slot `i`, and its whole outcome is the same for every other behaviour of the hooks;
whenever `i` is the first entry with the path (and holds a filesystem), `umount` returns
0 and frees slot `i`, and its whole outcome is the same for every other behaviour of the
hooks. -/
theorem mount_umount_ignore_hook_results (h : Hooks) (s : Sys) (path : CharPtr) (flags : Nat)
    (i : Nat) (hi : i < s.mm.sfSize) :
    (∀ (fs : FileSystem) (blockDevice : Option BlockDevice),
      path.str.getLast? = some '/' → (∀ j, j < s.mm.sfSize → ¬ PathAt s.mm path j) →
      s.mm.sfFileSystemsArray i = none → (∀ j, j < i → s.mm.sfFileSystemsArray j ≠ none) →
      (∃ s', MountManager.mount h s fs path blockDevice flags = some (0, s') ∧
        s'.mm.sfPathsArray i = some path ∧ s'.mm.sfFileSystemsArray i = some fs) ∧
      ∀ h' : Hooks, MountManager.mount h' s fs path blockDevice flags
        = MountManager.mount h s fs path blockDevice flags) ∧
    (∀ (fs : FileSystem), PathAt s.mm path i → s.mm.sfFileSystemsArray i = some fs →
      (∀ j, j < i → ¬ PathAt s.mm path j) →
      (∃ s', MountManager.umount h s path flags = some (0, s') ∧
        s'.mm.sfPathsArray i = none ∧ s'.mm.sfFileSystemsArray i = none) ∧
      ∀ h' : Hooks, MountManager.umount h' s path flags
        = MountManager.umount h s path flags) := by
  constructor
  · intro fs blockDevice hsep hnew hfree hlow
    constructor
    · refine ⟨_, mount_eq_of_free h s fs path blockDevice flags i hsep hnew hi hfree hlow, ?_, ?_⟩
      · simp [setAt]
      · simp [setAt]
    · intro h'
      rw [mount_eq_of_free h s fs path blockDevice flags i hsep hnew hi hfree hlow,
        mount_eq_of_free h' s fs path blockDevice flags i hsep hnew hi hfree hlow]
  · intro fs hp hfs hfirst
    constructor
    · refine ⟨_, umount_eq_of_found h s path flags i fs hi hp hfs hfirst, ?_, ?_⟩
      · simp [setAt]
      · simp [setAt]
    · intro h'
      rw [umount_eq_of_found h s path flags i fs hi hp hfs hfirst,
        umount_eq_of_found h' s path flags i fs hi hp hfs hfirst]

/-- C28 with hooks that report failure: "/fs2/" is mounted in slot 1 and "/fs1/" is
unmounted from slot 0 with result 0 all the same. -/
theorem mount_umount_ignore_hook_results_witness :
    (∃ s', MountManager.mount hooksFail sysFs1 2 (CharPtr.lit "/fs2/") (some 12) 124
        = some (0, s') ∧
      s'.mm.sfPathsArray 1 = some (CharPtr.lit "/fs2/") ∧
      s'.mm.sfFileSystemsArray 1 = some 2) ∧
    (∃ s', MountManager.umount hooksFail sysFs1 (CharPtr.lit "/fs1/") 134 = some (0, s') ∧
      s'.mm.sfPathsArray 0 = none ∧ s'.mm.sfFileSystemsArray 0 = none) :=
  ⟨((mount_umount_ignore_hook_results hooksFail sysFs1 (CharPtr.lit "/fs2/") 124 1
      (by decide)).1 2 (some 12) (by decide) (by decide) (by decide) (by decide)).1,
    ((mount_umount_ignore_hook_results hooksFail sysFs1 (CharPtr.lit "/fs1/") 134 0
      (by decide)).2 1 (by decide) (by decide) (by decide)).1⟩

/-! ## `open` -/

/-- C22: `open` rejects without side effects. A null path returns null with EFAULT, an
empty path returns null with ENOENT, and a non-empty path that is no registered device
and for which the mount manager resolves no filesystem (no matching entry, no root)
returns null with EBADF; in each case nothing but `errno` changes: no hook or filesystem
is invoked, the pool is untouched and no descriptor is allocated. -/
theorem vopen_rejects (h : IoHooks) (oh : OpenHooks) (m : MountManager) (s : IoSys)
    (oflag : Int) (args : List Int) :
    (∃ s', vopen h oh m s none oflag args = (none, s') ∧ s'.errno = EFAULT ∧
      s'.calls = s.calls ∧ s'.fdm = s.fdm ∧ s'.fFileDescriptor = s.fFileDescriptor ∧
      s'.socketsPool = s.socketsPool) ∧
    (∀ p : CharPtr, p.str = [] →
      ∃ s', vopen h oh m s (some p) oflag args = (none, s') ∧ s'.errno = ENOENT ∧
        s'.calls = s.calls ∧ s'.fdm = s.fdm ∧ s'.fFileDescriptor = s.fFileDescriptor ∧
        s'.socketsPool = s.socketsPool) ∧
    (∀ p : CharPtr, p.str ≠ [] → oh.identifyDevice p = none →
      (∀ i, i < m.sfSize → ¬ MatchesAt m p i) → m.sfRoot = none →
      ∃ s', vopen h oh m s (some p) oflag args = (none, s') ∧ s'.errno = EBADF ∧
        s'.calls = s.calls ∧ s'.fdm = s.fdm ∧ s'.fFileDescriptor = s.fFileDescriptor ∧
        s'.socketsPool = s.socketsPool) := by
  refine ⟨⟨_, rfl, rfl, rfl, rfl, rfl, rfl⟩, ?_, ?_⟩
  · intro p hp
    refine ⟨{ s with errno := ENOENT }, ?_, rfl, rfl, rfl, rfl, rfl⟩
    simp only [vopen, hp, if_true]
  · intro p hp hdev hno hroot
    have hid : MountManager.identifyFileSystem m p none = ⟨none, p, none⟩ := by
      have := identifyLoop_miss m p none m.sfSize 0 (fun j _ hj => hno j (by omega))
      rw [hroot] at this
      exact this
    refine ⟨{ s with errno := EBADF }, ?_, rfl, rfl, rfl, rfl, rfl⟩
    simp only [vopen, hp, if_false, hdev, hid]

/-- C22 at a table without root holding "/a/" and "/a/b/": the null path, the empty path
and "/x" are rejected with EFAULT, ENOENT and EBADF. -/
theorem vopen_rejects_witness :
    (vopen ioHooksOk openHooksTest tableNested ioDeviceBoot none 0 []).2.errno = 14 ∧
    (∃ s', vopen ioHooksOk openHooksTest tableNested ioDeviceBoot (some (CharPtr.lit "")) 0 []
        = (none, s') ∧ s'.errno = 2 ∧ s'.calls = ioDeviceBoot.calls) ∧
    (∃ s', vopen ioHooksOk openHooksTest tableNested ioDeviceBoot (some (CharPtr.lit "/x")) 0 []
        = (none, s') ∧ s'.errno = 9 ∧ s'.calls = ioDeviceBoot.calls) := by
  obtain ⟨h1, h2, h3⟩ := vopen_rejects ioHooksOk openHooksTest tableNested ioDeviceBoot 0 []
  obtain ⟨s1, e1, e2, _⟩ := h1
  obtain ⟨s2, f1, f2, f3, _⟩ := h2 (CharPtr.lit "") (by decide)
  obtain ⟨s3, g1, g2, g3, _⟩ := h3 (CharPtr.lit "/x") (by decide) (by decide) (by decide)
    (by decide)
  refine ⟨?_, ⟨s2, f1, f2, f3⟩, ⟨s3, g1, g2, g3⟩⟩
  rw [e1]
  exact e2

/-! ## `read`, `write`, `writev`, `fstat` -/

/-- C25: `read`, `write` and `fstat` with a null buffer and `writev` with a null vector
return -1 with EFAULT, and `writev` with a non-null vector and `iovcnt <= 0` returns -1
with EINVAL, in every case changing nothing but `errno` (no hook is invoked); for all
other arguments the hook runs once, in the entry state with `errno` reset to 0, and its
result is returned unchanged (for `writev` the hook is `do_writev`). -/
theorem transfer_argument_checks (rh : RwHooks) (s : IoSys) (io : IoObject) :
    (∀ nbyte, IoObject.read rh s io none nbyte = (-1, { s with errno := EFAULT })) ∧
    (∀ nbyte, IoObject.write rh s io none nbyte = (-1, { s with errno := EFAULT })) ∧
    IoObject.fstat rh s io none = (-1, { s with errno := EFAULT }) ∧
    (∀ iovcnt, IoObject.writev rh s io none iovcnt = (-1, { s with errno := EFAULT })) ∧
    (∀ v iovcnt, iovcnt ≤ 0 →
      IoObject.writev rh s io (some v) iovcnt = (-1, { s with errno := EINVAL })) ∧
    (∀ b nbyte, IoObject.read rh s io (some b) nbyte =
      ((rh.do_read { s with errno := 0 } io b nbyte).result,
        { s with
          errno := ((rh.do_read { s with errno := 0 } io b nbyte).errno).getD 0
          calls := s.calls ++ [IoCall.do_read io b nbyte] })) ∧
    (∀ b nbyte, IoObject.write rh s io (some b) nbyte =
      ((rh.do_write { s with errno := 0 } io (some b) nbyte).result,
        { s with
          errno := ((rh.do_write { s with errno := 0 } io (some b) nbyte).errno).getD 0
          calls := s.calls ++ [IoCall.do_write io (some b) nbyte] })) ∧
    (∀ b, IoObject.fstat rh s io (some b) =
      ((rh.do_fstat { s with errno := 0 } io b).result,
        { s with
          errno := ((rh.do_fstat { s with errno := 0 } io b).errno).getD 0
          calls := s.calls ++ [IoCall.do_fstat io b] })) ∧
    (∀ v iovcnt, 0 < iovcnt →
      IoObject.writev rh s io (some v) iovcnt =
        IoObject.do_writev rh { s with errno := 0 } io v iovcnt) := by
  refine ⟨fun _ => rfl, fun _ => rfl, rfl, fun _ => rfl, ?_, fun _ _ => rfl, fun _ _ => rfl,
    fun _ => rfl, ?_⟩
  · intro v iovcnt hle
    simp only [IoObject.writev, hle, if_true]
  · intro v iovcnt hpos
    have hnle : ¬ iovcnt ≤ 0 := by omega
    simp only [IoObject.writev, hnle, if_false]

/-- C25 at the calls of the tests: `read (buf, 321)` returns the result of the hook, 0,
with `errno` 0 and one hook invocation; `writev` with a count of 0 fails with EINVAL
without any. -/
theorem transfer_argument_checks_witness :
    (IoObject.read rwHooksTest { ioDeviceBoot with errno := -2 } 60 (some 7) 321).1 = 0 ∧
    (IoObject.read rwHooksTest { ioDeviceBoot with errno := -2 } 60 (some 7) 321).2.errno = 0 ∧
    (IoObject.read rwHooksTest { ioDeviceBoot with errno := -2 } 60 (some 7) 321).2.calls
      = [IoCall.do_read 60 7 321] ∧
    IoObject.writev rwHooksTest ioDeviceBoot 60 (some iovTest) 0
      = (-1, { ioDeviceBoot with errno := EINVAL }) := by
  obtain ⟨_, _, _, _, h5, h6, _⟩ :=
    transfer_argument_checks rwHooksTest { ioDeviceBoot with errno := -2 } 60
  obtain ⟨_, _, _, _, g5, _⟩ := transfer_argument_checks rwHooksTest ioDeviceBoot 60
  refine ⟨?_, ?_, ?_, g5 iovTest 0 (by decide)⟩
  · rw [h6 7 321]; rfl
  · rw [h6 7 321]; rfl
  · rw [h6 7 321]; rfl

theorem writeState_calls (rh : RwHooks) (io : IoObject) (iov : Nat → IoVec) (s : IoSys) :
    ∀ k, (writeState rh io iov s k).calls =
      s.calls ++ (List.range k).map
        (fun i => IoCall.do_write io (iov i).iov_base (iov i).iov_len) := by
  intro k
  induction k with
  | zero => simp [writeState]
  | succ k ih =>
    simp only [writeState, IoObject.do_write, ih, List.range_succ, List.map_append,
      List.map_cons, List.map_nil, List.append_assoc]

theorem wrapSsize_add_left (a b : Int) : wrapSsize (wrapSsize a + b) = wrapSsize (a + b) := by
  unfold wrapSsize
  omega

theorem wrapSsize_idem (a : Int) : wrapSsize (wrapSsize a) = wrapSsize a := by
  unfold wrapSsize
  omega

theorem wrapSsize_of_range (x : Int) (h0 : 0 ≤ x) (h1 : x ≤ SSIZE_MAX) : wrapSsize x = x := by
  unfold wrapSsize SSIZE_MAX at *
  omega

theorem do_writevLoop_all (rh : RwHooks) (io : IoObject) (iov : Nat → IoVec) (s : IoSys) :
    ∀ (k i : Nat) (total : Int), wrapSsize total = total →
      (∀ j, i ≤ j → j < i + k → 0 ≤ writeResult rh io iov s j) →
      IoObject.do_writevLoop rh io iov k i total (writeState rh io iov s i) =
        (wrapSsize (total + ((List.range' i k).map (writeResult rh io iov s)).sum),
          writeState rh io iov s (i + k)) := by
  intro k
  induction k with
  | zero => intro i total ht _; simp [IoObject.do_writevLoop, ht]
  | succ k ih =>
    intro i total _ hall
    have h0 : 0 ≤ writeResult rh io iov s i := hall i (le_refl _) (by omega)
    have hn : ¬ (IoObject.do_write rh (writeState rh io iov s i) io (iov i).iov_base
        (iov i).iov_len).1 < 0 := by
      have : (IoObject.do_write rh (writeState rh io iov s i) io (iov i).iov_base
        (iov i).iov_len).1 = writeResult rh io iov s i := rfl
      omega
    have hrec := ih (i + 1) (wrapSsize (total + writeResult rh io iov s i))
      (wrapSsize_idem _) (fun j hj1 hj2 => hall j (by omega) (by omega))
    simp only [IoObject.do_writevLoop, hn, if_false]
    have hst : (IoObject.do_write rh (writeState rh io iov s i) io (iov i).iov_base
        (iov i).iov_len).2 = writeState rh io iov s (i + 1) := rfl
    have hres : (IoObject.do_write rh (writeState rh io iov s i) io (iov i).iov_base
        (iov i).iov_len).1 = writeResult rh io iov s i := rfl
    rw [hst, hres, hrec, wrapSsize_add_left]
    have hidx : i + 1 + k = i + (k + 1) := by omega
    rw [hidx]
    simp only [List.range'_succ, List.map_cons, List.sum_cons]
    congr 2
    omega

theorem do_writevLoop_first_negative (rh : RwHooks) (io : IoObject) (iov : Nat → IoVec)
    (s : IoSys) (m : Nat) (hneg : writeResult rh io iov s m < 0) :
    ∀ (k i : Nat) (total : Int), i ≤ m → m < i + k →
      (∀ j, i ≤ j → j < m → 0 ≤ writeResult rh io iov s j) →
      IoObject.do_writevLoop rh io iov k i total (writeState rh io iov s i) =
        (writeResult rh io iov s m, writeState rh io iov s (m + 1)) := by
  intro k
  induction k with
  | zero => intro i total h1 h2; omega
  | succ k ih =>
    intro i total h1 h2 hbefore
    have hst : (IoObject.do_write rh (writeState rh io iov s i) io (iov i).iov_base
        (iov i).iov_len).2 = writeState rh io iov s (i + 1) := rfl
    have hres : (IoObject.do_write rh (writeState rh io iov s i) io (iov i).iov_base
        (iov i).iov_len).1 = writeResult rh io iov s i := rfl
    by_cases him : i = m
    · subst him
      have hlt : (IoObject.do_write rh (writeState rh io iov s i) io (iov i).iov_base
          (iov i).iov_len).1 < 0 := by rw [hres]; exact hneg
      simp only [IoObject.do_writevLoop, hlt, if_true]
      rw [hst, hres]
    · have h0 : 0 ≤ writeResult rh io iov s i := hbefore i (le_refl _) (by omega)
      have hn : ¬ (IoObject.do_write rh (writeState rh io iov s i) io (iov i).iov_base
          (iov i).iov_len).1 < 0 := by rw [hres]; omega
      simp only [IoObject.do_writevLoop, hn, if_false]
      rw [hst, hres]
      exact ih (i + 1) (wrapSsize (total + writeResult rh io iov s i)) (by omega) (by omega)
        (fun j hj1 hj2 => hbefore j (by omega) hj2)

/-- C26 refuted as stated: with two buffers of length `SSIZE_MAX` and a write hook that
accepts every buffer whole, both calls of the hook return the non-negative count
`SSIZE_MAX`, the sum of the counts is `2 * SSIZE_MAX`, and the default `writev` returns
-2, which is not that sum: the `ssize_t` accumulator overflowed. -/
theorem writev_sum_overflows :
    (∀ j, j < 2 →
      writeResult rwHooksWhole 60 iovHuge { ioDeviceBoot with errno := 0 } j = SSIZE_MAX) ∧
    ((List.range 2).map
      (writeResult rwHooksWhole 60 iovHuge { ioDeviceBoot with errno := 0 })).sum
      = 2 * SSIZE_MAX ∧
    (IoObject.writev rwHooksWhole ioDeviceBoot 60 (some iovHuge) 2).1 = -2 ∧
    (IoObject.writev rwHooksWhole ioDeviceBoot 60 (some iovHuge) 2).1 ≠
      ((List.range 2).map
        (writeResult rwHooksWhole 60 iovHuge { ioDeviceBoot with errno := 0 })).sum ∧
    (IoObject.writev rwHooksWhole ioDeviceBoot 60 (some iovHuge) 2).2.calls =
      [IoCall.do_write 60 (some 0) SSIZE_MAX.toNat,
        IoCall.do_write 60 (some 1) SSIZE_MAX.toNat] := by
  decide

/-- C26, amended: for every vector of `iovcnt >= 1` buffers, the default `writev` calls
the write hook once per buffer, in vector order, starting in the entry state with
`errno` reset. If every call returns a non-negative count, all `iovcnt` buffers are
written and the value returned is the sum of the counts as the `ssize_t` accumulator
holds it: the sum itself when it is at most `SSIZE_MAX`, and the sum reduced modulo
`2^64` into the range of `ssize_t` otherwise. Otherwise, `m` being the first buffer whose
call returns a negative result, that result is returned after `m + 1` calls, no further
call is made and the effects of the calls made remain. The calls recorded after `k`
buffers are exactly the `k` invocations of the hook, in order. -/
theorem writev_default (rh : RwHooks) (s : IoSys) (io : IoObject) (iov : Nat → IoVec)
    (iovcnt : Int) (hcnt : 1 ≤ iovcnt) :
    (∀ k, (writeState rh io iov { s with errno := 0 } k).calls =
      s.calls ++ (List.range k).map
        (fun i => IoCall.do_write io (iov i).iov_base (iov i).iov_len)) ∧
    ((∀ j, j < iovcnt.toNat → 0 ≤ writeResult rh io iov { s with errno := 0 } j) →
      IoObject.writev rh s io (some iov) iovcnt =
        (wrapSsize
          ((List.range iovcnt.toNat).map (writeResult rh io iov { s with errno := 0 })).sum,
          writeState rh io iov { s with errno := 0 } iovcnt.toNat) ∧
      (((List.range iovcnt.toNat).map (writeResult rh io iov { s with errno := 0 })).sum
          ≤ SSIZE_MAX →
        IoObject.writev rh s io (some iov) iovcnt =
          (((List.range iovcnt.toNat).map (writeResult rh io iov { s with errno := 0 })).sum,
            writeState rh io iov { s with errno := 0 } iovcnt.toNat))) ∧
    (∀ m, m < iovcnt.toNat →
      (∀ j, j < m → 0 ≤ writeResult rh io iov { s with errno := 0 } j) →
      writeResult rh io iov { s with errno := 0 } m < 0 →
      IoObject.writev rh s io (some iov) iovcnt =
        (writeResult rh io iov { s with errno := 0 } m,
          writeState rh io iov { s with errno := 0 } (m + 1))) := by
  have hnle : ¬ iovcnt ≤ 0 := by omega
  refine ⟨writeState_calls rh io iov { s with errno := 0 }, ?_, ?_⟩
  · intro hall
    have hw : IoObject.writev rh s io (some iov) iovcnt =
        (wrapSsize
          ((List.range iovcnt.toNat).map (writeResult rh io iov { s with errno := 0 })).sum,
          writeState rh io iov { s with errno := 0 } iovcnt.toNat) := by
      simp only [IoObject.writev, hnle, if_false, IoObject.do_writev]
      have h := do_writevLoop_all rh io iov { s with errno := 0 } iovcnt.toNat 0 0
        (by decide) (fun j _ hj => hall j (by omega))
      simp only [Nat.zero_add, Int.zero_add] at h
      rw [List.range_eq_range']
      exact h
    refine ⟨hw, ?_⟩
    intro hle
    have h0 : 0 ≤
        ((List.range iovcnt.toNat).map (writeResult rh io iov { s with errno := 0 })).sum := by
      apply List.sum_nonneg
      intro x hx
      obtain ⟨j, hj, rfl⟩ := List.mem_map.mp hx
      exact hall j (List.mem_range.mp hj)
    rw [hw, wrapSsize_of_range _ h0 hle]
  · intro m hm hbefore hneg
    simp only [IoObject.writev, hnle, if_false, IoObject.do_writev]
    exact do_writevLoop_first_negative rh io iov { s with errno := 0 } m hneg iovcnt.toNat 0 0
      (Nat.zero_le _) (by omega) (fun j _ hj => hbefore j hj)

/-- C26, amended, at a vector of buffers of lengths 10, 11, 12, ... and a write hook that
fails from its third call on: two buffers give 21, five buffers give -1 after three
calls. -/
theorem writev_default_witness :
    (IoObject.writev rwHooksTest ioDeviceBoot 60 (some iovTest) 2).1 = 21 ∧
    (IoObject.writev rwHooksTest ioDeviceBoot 60 (some iovTest) 5).1 = -1 ∧
    (IoObject.writev rwHooksTest ioDeviceBoot 60 (some iovTest) 5).2.calls =
      [IoCall.do_write 60 (some 0) 10, IoCall.do_write 60 (some 1) 11,
        IoCall.do_write 60 (some 2) 12] := by
  obtain ⟨_, h2, _⟩ := writev_default rwHooksTest ioDeviceBoot 60 iovTest 2 (by decide)
  obtain ⟨_, _, h5⟩ := writev_default rwHooksTest ioDeviceBoot 60 iovTest 5 (by decide)
  have e2 := (h2 (by decide)).2 (by decide)
  have e5 := h5 2 (by decide) (by decide) (by decide)
  refine ⟨?_, ?_, ?_⟩
  · rw [e2]; decide
  · rw [e5]; decide
  · rw [e5]; decide

/-! ## `socket`, `accept` and the registration of descriptors -/

/-- The outcome of `IO::allocFileDescriptor` for an object that already has a
descriptor: the close hook runs and the stored descriptor is cleared, while the table,
which still binds the object, is unchanged. -/
theorem allocFileDescriptor_eq_of_busy (h : IoHooks) (s : IoSys) (io : IoObject)
    (hb : 0 ≤ IoObject.getFileDescriptor s io) :
    (IoObject.allocFileDescriptor h s io).1 = none ∧
    (IoObject.allocFileDescriptor h s io).2.fdm = s.fdm ∧
    (IoObject.allocFileDescriptor h s io).2.fFileDescriptor io = noFileDescriptor ∧
    (IoObject.allocFileDescriptor h s io).2.calls = s.calls ++ [IoCall.do_close io] := by
  simp only [IoObject.allocFileDescriptor, alloc_eq_of_busy s io hb]
  refine ⟨rfl, rfl, ?_, rfl⟩
  simp [IoObject.clearFileDescriptor, IoObject.do_close, setAt]

/-- The outcome of `IO::allocFileDescriptor` for an object without descriptor when no
index from 3 on is free: the close hook runs, the stored descriptor is the unset
sentinel and the table is unchanged. -/
theorem allocFileDescriptor_eq_of_full (h : IoHooks) (s : IoSys) (io : IoObject)
    (hu : IoObject.getFileDescriptor s io < 0)
    (hfull : ∀ j, 3 ≤ j → j < s.fdm.sfSize → s.fdm.sfDescriptorsArray j ≠ none) :
    (IoObject.allocFileDescriptor h s io).1 = none ∧
    (IoObject.allocFileDescriptor h s io).2.fdm = s.fdm ∧
    (IoObject.allocFileDescriptor h s io).2.fFileDescriptor io = noFileDescriptor ∧
    (IoObject.allocFileDescriptor h s io).2.calls = s.calls ++ [IoCall.do_close io] ∧
    (IoObject.allocFileDescriptor h s io).2.socketsPool = s.socketsPool := by
  simp only [IoObject.allocFileDescriptor, alloc_eq_of_full s io hu hfull]
  refine ⟨rfl, rfl, ?_, rfl, rfl⟩
  simp [IoObject.clearFileDescriptor, IoObject.do_close, setAt]

/-- C21 at the failing input: the device "/dev/test", already open on descriptor 3, is
opened again. The open hook succeeds, the allocation fails with EBUSY, the close hook
is invoked, the stored descriptor becomes the unset sentinel and `open` returns null,
but slot 3 of the descriptor table is still bound to the device. -/
theorem vopen_busy_leaves_slot_bound :
    FileDescriptorsManager.getIo ioDeviceOpen 3 = some 50 ∧
    IoObject.getFileDescriptor ioDeviceOpen 50 = 3 ∧
    (vopen ioHooksOk openHooksTest tableNested ioDeviceOpen (some (CharPtr.lit "/dev/test"))
      0 [123]).1 = none ∧
    (vopen ioHooksOk openHooksTest tableNested ioDeviceOpen (some (CharPtr.lit "/dev/test"))
      0 [123]).2.errno = EBUSY ∧
    (vopen ioHooksOk openHooksTest tableNested ioDeviceOpen (some (CharPtr.lit "/dev/test"))
      0 [123]).2.calls =
      ioDeviceOpen.calls ++
        [IoCall.do_vopen 50 (CharPtr.lit "/dev/test") 0, IoCall.do_close 50] ∧
    IoObject.getFileDescriptor
      (vopen ioHooksOk openHooksTest tableNested ioDeviceOpen
        (some (CharPtr.lit "/dev/test")) 0 [123]).2 50 = noFileDescriptor ∧
    FileDescriptorsManager.getIo
      (vopen ioHooksOk openHooksTest tableNested ioDeviceOpen
        (some (CharPtr.lit "/dev/test")) 0 [123]).2 3 = some 50 := by
  decide

/-- C24 at the failing input: `socket (1, 2, 3)` with a free pool slot and a descriptor
table of capacity 3. The hook succeeds, the allocation fails with ENFILE (the close hook
runs, no slot is bound, the stored descriptor is the unset sentinel), and `socket ()`
returns the socket all the same, its pool slot still in use. -/
theorem socket_returns_unregistered :
    ∃ s', socket ioHooksOk socketHooksOk ioSocketsNoRoom 1 2 3 = some (some 100, s') ∧
      s'.errno = ENFILE ∧ IoObject.getFileDescriptor s' 100 = noFileDescriptor ∧
      tableSlots s' = [none, none, none] ∧
      s'.calls = [IoCall.do_socket 100 1 2 3, IoCall.do_close 100] ∧
      poolFlags s' = some [true, false] :=
  ⟨_, rfl, by decide, by decide, by decide, by decide, by decide⟩

/-- C27 at the failing input: after "/dev/test" is opened twice (the second `open`
failing with EBUSY), slot 3 of the descriptor table is bound to the device while the
descriptor stored on the device is the unset sentinel: the table and the stored
descriptors disagree. -/
theorem reopen_breaks_consistency :
    ¬ Consistent
      (vopen ioHooksOk openHooksTest tableNested ioDeviceOpen
        (some (CharPtr.lit "/dev/test")) 0 [123]).2 := by
  intro hc
  have h := (hc 3 50 (by decide)).1 (by decide)
  revert h
  decide

/-- C29 at the failing input: `accept` on the open socket 100 with an accept hook that
reports failure. `accept` returns null, and the slot it acquired (slot 1, free before the
call) is still in use. -/
theorem accept_failure_keeps_slot :
    poolFlags ioSocketOpen = some [true, false] ∧
    (Socket.accept ioHooksOk socketHooksFail ioSocketOpen 100 none none).1 = none ∧
    poolFlags (Socket.accept ioHooksOk socketHooksFail ioSocketOpen 100 none none).2
      = some [true, true] ∧
    (Socket.accept ioHooksOk socketHooksFail ioSocketOpen 100 none none).2.calls
      = [IoCall.do_accept 100 101] := by
  decide

end PosixIO
